import Mathlib

/-!
Verification development for the `FileMemory` data safe of the pollgo
repository (`src/datasafe/mysql.go`, `package datasafe` section defining
`FileMemory`, lines 386-1162).

The Go code is shallowly embedded as follows:

* Go slices become Lean lists; a Go `nil` slice and an empty slice are
  observationally identical for every operation of this store except the
  `p.Config == nil` test, so `Config` (the one field whose nil-ness is
  branched on) is modelled as `Option (List Nat)` (`none` = Go `nil`)
  while every other slice is a plain list.
* `time.Now()` becomes a logical clock `now : Nat` carried in the store
  state and bumped after every operation, so successive operations get
  strictly increasing timestamps (Go's `time.Now` is monotonic).
* `crypto/rand` in `getRandomID` becomes an oracle: the random suffix is
  an arbitrary string parameter of the operation.
* The gob codec becomes a value-level codec: `save` produces an `FMFile`
  (the nine encoded fields in order), `loadFields` decodes the first `k`
  fields of such a file, leaving the Go zero value for fields past the
  end of the stream, exactly as `load`'s `err == io.EOF` handling does;
  a full (untruncated) file is decoded with `k = 9`.  gob decodes a
  zero-length slice by leaving the target slice `nil`, so the decoded
  config is `none` iff the encoded byte slice is empty.
* The Go map `fm.memory` and the storage directory become association
  lists keyed by the internal identifier.
* `os.PathSeparator` is `/` (the code targets a Linux server).
* `ClearAfterRatio` is `float64` in Go; it is modelled as an exact
  rational and `int(math.Ceil(float64(M) * r))` as the exact ceiling
  `(M * r.num + r.den - 1) / r.den`, idealising float rounding.
* The single global mutex serialises every operation and worker tick, so
  the store is modelled as a sequential state machine: `step` executes
  one public operation or one worker event.
-/

namespace PollGo

/-- Error values of the FileMemory data safe: `ErrFileMemoryNotActive`
and `ErrFileMemoryInvalidID` (the latter doubles as the unknown-answer
error, exactly as in the source). -/
inductive FMErr where
  | notActive
  | invalidID
deriving DecidableEq, Repr

/-- The reserved escape character U+FDD0 used by `getInternalID`. -/
def sentinel : Char := '﷐'

/-- Path separator of the target platform (`os.PathSeparator`, Linux). -/
def pathSeparator : Char := '/'

/-- Embedding of `FileMemory.getInternalID`: reject identifiers that
contain the sentinel, otherwise replace every path separator by the
sentinel. -/
def getInternalID (ID : String) : Except FMErr String :=
  if ID.data.contains sentinel then .error .invalidID
  else .ok ⟨ID.data.map fun c => if c = pathSeparator then sentinel else c⟩

/-- Embedding of the `FileMemoryPollResult` struct. -/
structure FileMemoryPollResult where
  Data : List (List Int)
  Names : List String
  Comments : List String
  Config : Option (List Nat)
  LastAccess : Nat
  Deleted : Bool
  Creator : String
  Change : List String
  IDs : List String
  AnswerCounter : Nat
deriving DecidableEq, Repr

/-- The Go zero value of `FileMemoryPollResult` with `LastAccess` set to
`now` — what `load` returns for a file that does not exist. -/
def emptyRecord (now : Nat) : FileMemoryPollResult :=
  { Data := [], Names := [], Comments := [], Config := none, LastAccess := now,
    Deleted := false, Creator := "", Change := [], IDs := [], AnswerCounter := 0 }

/-- The Go zero value of `FileMemoryPollResult` (zero time). -/
def zeroRecord : FileMemoryPollResult := emptyRecord 0

/-- One poll file on disk: the nine gob-encoded fields written by
`FileMemory.save`, in encoding order. -/
structure FMFile where
  data : List (List Int)
  names : List String
  comments : List String
  config : List Nat
  deleted : Bool
  creator : String
  change : List String
  ids : List String
  answerCounter : Nat
deriving DecidableEq, Repr

/-- Embedding of `FileMemory.save` restricted to its encoding action: a
record whose `Config` is `nil` produces no file (the function returns
early), any other record produces the nine fields in order. -/
def save (p : FileMemoryPollResult) : Option FMFile :=
  match p.Config with
  | none => none
  | some c =>
      some { data := p.Data, names := p.Names, comments := p.Comments, config := c,
             deleted := p.Deleted, creator := p.Creator, change := p.Change,
             ids := p.IDs, answerCounter := p.AnswerCounter }

/-- Result of gob-decoding a byte-slice field: a zero-length encoded
slice leaves the target `nil`. -/
def decodeConfig (bytes : List Nat) : Option (List Nat) :=
  if bytes = [] then none else some bytes

/-- Embedding of the two padding loops at the end of `FileMemory.load`:
extend `l` with empty strings until it is at least `n` long. -/
def padTo (l : List String) (n : Nat) : List String :=
  l ++ List.replicate (n - l.length) ""

/-- Embedding of the decoding part of `FileMemory.load` for a file whose
gob stream holds only the first `k` of the nine fields: decoding a field
past the end of the stream yields `io.EOF`, which the code ignores,
keeping the Go zero value. -/
def loadFields (f : FMFile) (k : Nat) (now : Nat) : FileMemoryPollResult :=
  let names := if 2 ≤ k then f.names else []
  { Data := if 1 ≤ k then f.data else []
    Names := names
    Comments := if 3 ≤ k then f.comments else []
    Config := if 4 ≤ k then decodeConfig f.config else none
    LastAccess := now
    Deleted := if 5 ≤ k then f.deleted else false
    Creator := if 6 ≤ k then f.creator else ""
    Change := padTo (if 7 ≤ k then f.change else []) names.length
    IDs := padTo (if 8 ≤ k then f.ids else []) names.length
    AnswerCounter := if 9 ≤ k then f.answerCounter else 0 }

/-- Embedding of `FileMemory.load` on an untruncated file. -/
def load (f : FMFile) (now : Nat) : FileMemoryPollResult := loadFields f 9 now

/-- Byte content of a Go byte slice (`nil` and empty have the same
bytes). -/
def configBytes (c : Option (List Nat)) : List Nat := c.getD []

/-- Embedding of `fmt.Sprintf` with format `%d-%s` as used by
`SavePollResult`: decimal counter, a dash, then the random suffix. -/
def mkAnswerID (n : Nat) (suffix : String) : String :=
  Nat.repr n ++ "-" ++ suffix

/-- Embedding of the scan loop `for i := range p.IDs`: index of the
first element equal to `answerID`, if any.  All four row-lookup
operations (`OverwritePollResult`, `GetSinglePollResult`,
`DeleteAnswer`, `GetChange`) locate their row with this scan. -/
def lookupIndex : List String → String → Option Nat
  | [], _ => none
  | x :: xs, a => if x = a then some 0 else (lookupIndex xs a).map (· + 1)

/-! ### Association lists (the Go map `fm.memory` and the storage directory) -/

/-- Lookup in an association list (Go map read / file-exists test). -/
def getEntry {α : Type} : List (String × α) → String → Option α
  | [], _ => none
  | (k', v) :: rest, k => if k' = k then some v else getEntry rest k

/-- Insert or replace in an association list (Go map write /
`os.Create`). -/
def setEntry {α : Type} : List (String × α) → String → α → List (String × α)
  | [], k, v => [(k, v)]
  | (k', v') :: rest, k, v =>
      if k' = k then (k, v) :: rest else (k', v') :: setEntry rest k v

/-- Removal from an association list (Go `delete` / `os.Remove`). -/
def delEntry {α : Type} : List (String × α) → String → List (String × α)
  | [], _ => []
  | (k', v) :: rest, k => if k' = k then delEntry rest k else (k', v) :: delEntry rest k

/-! ### The store state -/

/-- Configuration fields of `FileMemory` read by the worker.
`ClearAfterRatio` is exact (float64 idealised as a rational). -/
structure FMConfig where
  ClearInterval : Nat
  ClearAfterRatio : ℚ
  MaximumMemory : Nat
  DiscSyncInterval : Nat
deriving DecidableEq

/-- The validation performed by `FileMemory.LoadConfig`. -/
def ValidConfig (cfg : FMConfig) : Prop :=
  0 < cfg.MaximumMemory ∧ 0 < cfg.ClearInterval ∧
    0 ≤ cfg.ClearAfterRatio ∧ cfg.ClearAfterRatio ≤ 1

/-- Whole state of the data safe: the hot map, the storage directory,
the active flag and the logical clock. -/
structure StoreState where
  cfg : FMConfig
  memory : List (String × FileMemoryPollResult)
  disk : List (String × FMFile)
  active : Bool
  now : Nat
deriving DecidableEq

/-- State right after a successful `LoadConfig`: empty hot map, empty
storage directory, store active. -/
def initState (cfg : FMConfig) : StoreState :=
  { cfg := cfg, memory := [], disk := [], active := true, now := 0 }

/-- A small concrete configuration, used by witnesses and
counterexamples: clear every minute, keep one poll in memory, evict
everything on cleanup, no disc sync. -/
def cfg0 : FMConfig :=
  { ClearInterval := 1
    ClearAfterRatio := 0
    MaximumMemory := 1
    DiscSyncInterval := 0 }

/-- A freshly initialised store with the concrete configuration. -/
def s0 : StoreState := initState cfg0

/-- The record `testload` guarantees to be in memory for an internal
identifier: the hot record if present, otherwise the decode of the disk
file, otherwise a fresh empty record. -/
def effRecord (s : StoreState) (iid : String) : FileMemoryPollResult :=
  match getEntry s.memory iid with
  | some p => p
  | none =>
      match getEntry s.disk iid with
      | some f => load f s.now
      | none => emptyRecord s.now

/-- Embedding of `FileMemory.testload` (caller holds the lock): make
sure the poll is hot, loading it from disk or creating it empty. -/
def testload (s : StoreState) (pollID : String) : Except FMErr StoreState :=
  match getInternalID pollID with
  | .error e => .error e
  | .ok iid =>
      match getEntry s.memory iid with
      | some _ => .ok s
      | none =>
          match getEntry s.disk iid with
          | some f => .ok { s with memory := setEntry s.memory iid (load f s.now) }
          | none => .ok { s with memory := setEntry s.memory iid (emptyRecord s.now) }

/-! ### Public operations -/

/-- Embedding of `FileMemory.SavePollResult`.  `suffix` is the oracle
value of `getRandomID`. -/
def savePollResult (s : StoreState) (pollID name comment : String) (results : List Int)
    (change : String) (suffix : String) : Except FMErr String × StoreState :=
  if !s.active then (.error .notActive, s) else
  match testload s pollID with
  | .error e => (.error e, s)
  | .ok s1 =>
      match getInternalID pollID with
      | .error e => (.error e, s1)
      | .ok iid =>
          let p := (getEntry s1.memory iid).getD zeroRecord
          let id := mkAnswerID (p.AnswerCounter + 1) suffix
          let p' := { p with
            Data := p.Data ++ [results]
            Names := p.Names ++ [name]
            Comments := p.Comments ++ [comment]
            Change := p.Change ++ [change]
            AnswerCounter := p.AnswerCounter + 1
            IDs := p.IDs ++ [id]
            LastAccess := s1.now }
          (.ok id, { s1 with memory := setEntry s1.memory iid p' })

/-- Embedding of `FileMemory.OverwritePollResult`. -/
def overwritePollResult (s : StoreState) (pollID answerID name comment : String)
    (results : List Int) (change : String) : Except FMErr Unit × StoreState :=
  if !s.active then (.error .notActive, s) else
  match testload s pollID with
  | .error e => (.error e, s)
  | .ok s1 =>
      match getInternalID pollID with
      | .error e => (.error e, s1)
      | .ok iid =>
          let p := (getEntry s1.memory iid).getD zeroRecord
          match lookupIndex p.IDs answerID with
          | none => (.error .invalidID, s1)
          | some i =>
              let p' := { p with
                Data := p.Data.set i results
                Names := p.Names.set i name
                Comments := p.Comments.set i comment
                Change := p.Change.set i change
                LastAccess := s1.now }
              (.ok (), { s1 with memory := setEntry s1.memory iid p' })

/-- Embedding of `FileMemory.GetPollResult`. -/
def getPollResult (s : StoreState) (pollID : String) :
    Except FMErr (List (List Int) × List String × List String × List String) × StoreState :=
  if !s.active then (.error .notActive, s) else
  match testload s pollID with
  | .error e => (.error e, s)
  | .ok s1 =>
      match getInternalID pollID with
      | .error e => (.error e, s1)
      | .ok iid =>
          let p := (getEntry s1.memory iid).getD zeroRecord
          let p' := { p with LastAccess := s1.now }
          (.ok (p.Data, p.Names, p.Comments, p.IDs),
           { s1 with memory := setEntry s1.memory iid p' })

/-- Embedding of `FileMemory.GetSinglePollResult`.  The unchecked
indexing `p.Data[i]`, `p.Names[i]`, `p.Comments[i]` is modelled with a
defaulting access; the in-bounds theorem for `lookupIndex` shows the
default is never used on well-formed records. -/
def getSinglePollResult (s : StoreState) (pollID answerID : String) :
    Except FMErr (List Int × String × String) × StoreState :=
  if !s.active then (.error .notActive, s) else
  match testload s pollID with
  | .error e => (.error e, s)
  | .ok s1 =>
      match getInternalID pollID with
      | .error e => (.error e, s1)
      | .ok iid =>
          let p := (getEntry s1.memory iid).getD zeroRecord
          match lookupIndex p.IDs answerID with
          | none => (.error .invalidID, s1)
          | some i =>
              let p' := { p with LastAccess := s1.now }
              (.ok ((p.Data.getD i []), (p.Names.getD i ""), (p.Comments.getD i "")),
               { s1 with memory := setEntry s1.memory iid p' })

/-- Embedding of `FileMemory.DeleteAnswer`.  The slice splices
`append(xs[:i], xs[i+1:]...)` are `List.eraseIdx`. -/
def deleteAnswer (s : StoreState) (pollID answerID : String) :
    Except FMErr Unit × StoreState :=
  if !s.active then (.error .notActive, s) else
  match testload s pollID with
  | .error e => (.error e, s)
  | .ok s1 =>
      match getInternalID pollID with
      | .error e => (.error e, s1)
      | .ok iid =>
          let p := (getEntry s1.memory iid).getD zeroRecord
          match lookupIndex p.IDs answerID with
          | none => (.error .invalidID, s1)
          | some i =>
              let p' := { p with
                LastAccess := s1.now
                Data := p.Data.eraseIdx i
                Names := p.Names.eraseIdx i
                Comments := p.Comments.eraseIdx i
                Change := p.Change.eraseIdx i
                IDs := p.IDs.eraseIdx i }
              (.ok (), { s1 with memory := setEntry s1.memory iid p' })

/-- Embedding of `FileMemory.SavePollConfig`.  The caller-supplied blob
may be Go `nil` (`none`). -/
def savePollConfig (s : StoreState) (pollID : String) (config : Option (List Nat)) :
    Except FMErr Unit × StoreState :=
  if !s.active then (.error .notActive, s) else
  match testload s pollID with
  | .error e => (.error e, s)
  | .ok s1 =>
      match getInternalID pollID with
      | .error e => (.error e, s1)
      | .ok iid =>
          let p := (getEntry s1.memory iid).getD zeroRecord
          let p' := { p with Config := config, LastAccess := s1.now }
          (.ok (), { s1 with memory := setEntry s1.memory iid p' })

/-- Embedding of `FileMemory.GetPollConfig`. -/
def getPollConfig (s : StoreState) (pollID : String) :
    Except FMErr (Option (List Nat)) × StoreState :=
  if !s.active then (.error .notActive, s) else
  match testload s pollID with
  | .error e => (.error e, s)
  | .ok s1 =>
      match getInternalID pollID with
      | .error e => (.error e, s1)
      | .ok iid =>
          let p := (getEntry s1.memory iid).getD zeroRecord
          let p' := { p with LastAccess := s1.now }
          (.ok p.Config, { s1 with memory := setEntry s1.memory iid p' })

/-- Embedding of `FileMemory.SavePollCreator`. -/
def savePollCreator (s : StoreState) (pollID name : String) :
    Except FMErr Unit × StoreState :=
  if !s.active then (.error .notActive, s) else
  match testload s pollID with
  | .error e => (.error e, s)
  | .ok s1 =>
      match getInternalID pollID with
      | .error e => (.error e, s1)
      | .ok iid =>
          let p := (getEntry s1.memory iid).getD zeroRecord
          let p' := { p with Creator := name, LastAccess := s1.now }
          (.ok (), { s1 with memory := setEntry s1.memory iid p' })

/-- Embedding of `FileMemory.GetPollCreator`. -/
def getPollCreator (s : StoreState) (pollID : String) :
    Except FMErr String × StoreState :=
  if !s.active then (.error .notActive, s) else
  match testload s pollID with
  | .error e => (.error e, s)
  | .ok s1 =>
      match getInternalID pollID with
      | .error e => (.error e, s1)
      | .ok iid =>
          let p := (getEntry s1.memory iid).getD zeroRecord
          let p' := { p with LastAccess := s1.now }
          (.ok p.Creator, { s1 with memory := setEntry s1.memory iid p' })

/-- Embedding of `FileMemory.MarkPollDeleted`. -/
def markPollDeleted (s : StoreState) (pollID : String) :
    Except FMErr Unit × StoreState :=
  if !s.active then (.error .notActive, s) else
  match testload s pollID with
  | .error e => (.error e, s)
  | .ok s1 =>
      match getInternalID pollID with
      | .error e => (.error e, s1)
      | .ok iid =>
          let p := (getEntry s1.memory iid).getD zeroRecord
          let p' := { p with Deleted := true, Creator := "", LastAccess := s1.now }
          (.ok (), { s1 with memory := setEntry s1.memory iid p' })

/-- Embedding of `FileMemory.GetChange` (note: it does not refresh
`LastAccess` and does not write the record back). -/
def getChange (s : StoreState) (pollID answerID : String) :
    Except FMErr String × StoreState :=
  if !s.active then (.error .notActive, s) else
  match testload s pollID with
  | .error e => (.error e, s)
  | .ok s1 =>
      match getInternalID pollID with
      | .error e => (.error e, s1)
      | .ok iid =>
          let p := (getEntry s1.memory iid).getD zeroRecord
          match lookupIndex p.IDs answerID with
          | none => (.error .invalidID, s1)
          | some i => (.ok (p.Change.getD i ""), s1)

/-! ### Worker events -/

/-- Embedding of `fm.save(id)`'s effect on the directory: write the
encoded file unless the record is missing or has a `nil` config. -/
def saveToDisk (s : StoreState) (id : String) : StoreState :=
  match getEntry s.memory id with
  | none => s
  | some p =>
      match save p with
      | none => s
      | some f => { s with disk := setEntry s.disk id f }

/-- Persist-then-drop of one hot record (one iteration of the eviction
loop, and of the GC phase-1 loop). -/
def evictOne (s : StoreState) (id : String) : StoreState :=
  let s1 := saveToDisk s id
  { s1 with memory := delEntry s1.memory id }

/-- Embedding of `int(math.Ceil(float64(M) * r))` with exact rational
arithmetic: the ceiling of `M * r`, computed on numerator and
denominator. -/
def clearTarget (M : Nat) (r : ℚ) : Nat :=
  (M * r.num.toNat + (r.den - 1)) / r.den

/-- Embedding of the timestamp-ascending ordering of
`fileMemoryHelperArray` applied to the hot map: the hot entries as
`(id, lastAccess)` pairs, sorted by time.  `sort.Sort` is an arbitrary
correct sort; insertion sort is one. -/
def sortByTime (m : List (String × FileMemoryPollResult)) : List (String × Nat) :=
  List.insertionSort (fun a b => a.2 ≤ b.2) (m.map fun kv => (kv.1, kv.2.LastAccess))

/-- Embedding of the eviction loop `for len(fm.memory) > target`:
persist-then-drop the ids of `l` in order while the hot count exceeds
the target. -/
def evictLoop (target : Nat) : StoreState → List (String × Nat) → StoreState
  | s, [] => s
  | s, e :: rest =>
      if s.memory.length ≤ target then s
      else evictLoop target (evictOne s e.1) rest

/-- Embedding of the clear-tick branch of `FileMemory.worker`. -/
def clearTick (s : StoreState) : StoreState :=
  if s.memory.length ≤ s.cfg.MaximumMemory then s
  else
    evictLoop (clearTarget s.cfg.MaximumMemory s.cfg.ClearAfterRatio) s
      (sortByTime s.memory)

/-- Embedding of the disc-sync branch of `FileMemory.worker`: persist
every hot record, keep it hot. -/
def syncTick (s : StoreState) : StoreState :=
  s.memory.foldl (fun acc kv => saveToDisk acc kv.1) s

/-- Embedding of the shutdown branch of `FileMemory.worker` together
with `FlushAndClose`: persist everything, clear the hot map, go
inactive.  A call on an inactive store returns immediately. -/
def flushAndClose (s : StoreState) : StoreState :=
  if !s.active then s
  else
    let s1 := s.memory.foldl (fun acc kv => saveToDisk acc kv.1) s
    { s1 with memory := [], active := false }

/-- Phase 1 of `FileMemory.RunGC`: persist-then-drop every hot record
flagged deleted. -/
def gcPhase1 (s : StoreState) : StoreState :=
  s.memory.foldl (fun acc kv => if kv.2.Deleted then evictOne acc kv.1 else acc) s

/-- A directory file is removed by GC iff its decoded record is marked
deleted or was never configured. -/
def gcRemoves (f : FMFile) (now : Nat) : Bool :=
  (load f now).Deleted || (load f now).Config.isNone

/-- Embedding of `FileMemory.RunGC`: drop deleted hot records, then
physically remove every file whose decoded record is deleted or has no
configuration. -/
def runGC (s : StoreState) : Except FMErr Unit × StoreState :=
  if !s.active then (.error .notActive, s)
  else
    let s1 := gcPhase1 s
    (.ok (), { s1 with disk := s1.disk.filter fun kv => !gcRemoves kv.2 s.now })

/-! ### Traces -/

/-- One event of the store: a public API call or a worker event. -/
inductive Op where
  | savePollResult (pollID name comment : String) (results : List Int)
      (change : String) (suffix : String)
  | overwritePollResult (pollID answerID name comment : String) (results : List Int)
      (change : String)
  | getPollResult (pollID : String)
  | getSinglePollResult (pollID answerID : String)
  | deleteAnswer (pollID answerID : String)
  | savePollConfig (pollID : String) (config : Option (List Nat))
  | getPollConfig (pollID : String)
  | savePollCreator (pollID name : String)
  | getPollCreator (pollID : String)
  | markPollDeleted (pollID : String)
  | getChange (pollID answerID : String)
  | runGC
  | clearTick
  | syncTick
  | flushAndClose
deriving DecidableEq, Repr

/-- Observable output of one event. -/
inductive Out where
  | unit
  | id (s : String)
  | results (r : List (List Int) × List String × List String × List String)
  | single (r : List Int × String × String)
  | config (c : Option (List Nat))
  | creator (s : String)
  | change (s : String)
deriving DecidableEq, Repr

/-- Execute one event, without the clock bump. -/
def applyOp (s : StoreState) : Op → Except FMErr Out × StoreState
  | .savePollResult pollID name comment results change suffix =>
      let (r, s') := savePollResult s pollID name comment results change suffix
      (r.map .id, s')
  | .overwritePollResult pollID answerID name comment results change =>
      let (r, s') := overwritePollResult s pollID answerID name comment results change
      (r.map fun _ => .unit, s')
  | .getPollResult pollID =>
      let (r, s') := getPollResult s pollID
      (r.map .results, s')
  | .getSinglePollResult pollID answerID =>
      let (r, s') := getSinglePollResult s pollID answerID
      (r.map .single, s')
  | .deleteAnswer pollID answerID =>
      let (r, s') := deleteAnswer s pollID answerID
      (r.map fun _ => .unit, s')
  | .savePollConfig pollID config =>
      let (r, s') := savePollConfig s pollID config
      (r.map fun _ => .unit, s')
  | .getPollConfig pollID =>
      let (r, s') := getPollConfig s pollID
      (r.map .config, s')
  | .savePollCreator pollID name =>
      let (r, s') := savePollCreator s pollID name
      (r.map fun _ => .unit, s')
  | .getPollCreator pollID =>
      let (r, s') := getPollCreator s pollID
      (r.map .creator, s')
  | .markPollDeleted pollID =>
      let (r, s') := markPollDeleted s pollID
      (r.map fun _ => .unit, s')
  | .getChange pollID answerID =>
      let (r, s') := getChange s pollID answerID
      (r.map .change, s')
  | .runGC =>
      let (r, s') := runGC s
      (r.map fun _ => .unit, s')
  | .clearTick => (.ok .unit, clearTick s)
  | .syncTick => (.ok .unit, syncTick s)
  | .flushAndClose => (.ok .unit, flushAndClose s)

/-- Execute one event and advance the logical clock. -/
def step (s : StoreState) (op : Op) : Except FMErr Out × StoreState :=
  let (r, s') := applyOp s op
  (r, { s' with now := s'.now + 1 })

/-- Execute a list of events, collecting the outputs. -/
def runWithOuts : StoreState → List Op → StoreState × List (Except FMErr Out)
  | s, [] => (s, [])
  | s, op :: rest =>
      let (r, s') := step s op
      let (sF, outs) := runWithOuts s' rest
      (sF, r :: outs)

/-- Execute a list of events. -/
def run (s : StoreState) (ops : List Op) : StoreState :=
  (runWithOuts s ops).1

/-- The poll identifier an event addresses, if any. -/
def opPollID : Op → Option String
  | .savePollResult pollID _ _ _ _ _ => some pollID
  | .overwritePollResult pollID _ _ _ _ _ => some pollID
  | .getPollResult pollID => some pollID
  | .getSinglePollResult pollID _ => some pollID
  | .deleteAnswer pollID _ => some pollID
  | .savePollConfig pollID _ => some pollID
  | .getPollConfig pollID => some pollID
  | .savePollCreator pollID _ => some pollID
  | .getPollCreator pollID => some pollID
  | .markPollDeleted pollID => some pollID
  | .getChange pollID _ => some pollID
  | .runGC => none
  | .clearTick => none
  | .syncTick => none
  | .flushAndClose => none

/-- The answer ids handed out by successful `SavePollResult` calls for
poll `P` along a trace, in order. -/
def idsForPoll (P : String) : List Op → List (Except FMErr Out) → List String
  | [], _ => []
  | _, [] => []
  | op :: ops, o :: outs =>
      match op, o with
      | .savePollResult pollID _ _ _ _ _, .ok (.id x) =>
          if pollID = P then x :: idsForPoll P ops outs else idsForPoll P ops outs
      | _, _ => idsForPoll P ops outs

deriving instance DecidableEq for Except

/-- Parallel-array well-formedness of an in-memory record. -/
def recordWF (p : FileMemoryPollResult) : Prop :=
  p.Names.length = p.Data.length ∧ p.Comments.length = p.Data.length ∧
    p.Change.length = p.Data.length ∧ p.IDs.length = p.Data.length

/-- Parallel-array well-formedness of an on-disk file. -/
def fileWF (f : FMFile) : Prop :=
  f.names.length = f.data.length ∧ f.comments.length = f.data.length ∧
    f.change.length = f.data.length ∧ f.ids.length = f.data.length

instance (p : FileMemoryPollResult) : Decidable (recordWF p) := by
  unfold recordWF
  infer_instance

instance (f : FMFile) : Decidable (fileWF f) := by
  unfold fileWF
  infer_instance

/-- Decimal digit string of a natural number, in the direct recursive
form (least significant digit last). -/
def decRepr (n : Nat) : List Char :=
  if h : n < 10 then [Nat.digitChar n]
  else decRepr (n / 10) ++ [Nat.digitChar (n % 10)]
decreasing_by exact Nat.div_lt_self (by omega) (by omega)

/-- Structural invariant of a store state: every hot record and every
file is well-formed, and keys are unique. -/
def stateInv (s : StoreState) : Prop :=
  (∀ kv ∈ s.memory, recordWF kv.2) ∧ (∀ kv ∈ s.disk, fileWF kv.2) ∧
    (s.memory.map Prod.fst).Nodup ∧ (s.disk.map Prod.fst).Nodup

/-- Everything in a record except its `LastAccess` timestamp. -/
def content (p : FileMemoryPollResult) :
    List (List Int) × List String × List String × Option (List Nat) ×
      Bool × String × List String × List String × Nat :=
  (p.Data, p.Names, p.Comments, p.Config, p.Deleted, p.Creator, p.Change, p.IDs,
    p.AnswerCounter)

instance : IsTotal (String × Nat) (fun a b => a.2 ≤ b.2) :=
  ⟨fun a b => Nat.le_total a.2 b.2⟩

instance : IsTrans (String × Nat) (fun a b => a.2 ≤ b.2) :=
  ⟨fun _ _ _ h1 h2 => Nat.le_trans h1 h2⟩

instance (s : StoreState) : Decidable (stateInv s) := by
  unfold stateInv
  infer_instance

instance (cfg : FMConfig) : Decidable (ValidConfig cfg) := by
  unfold ValidConfig
  infer_instance

/-- A record whose config blob is present and non-empty. -/
def configNE (p : FileMemoryPollResult) : Prop :=
  ∃ c, p.Config = some c ∧ c ≠ []

/-- Events allowed in the amended append-order claim: result saves on
one fixed poll interleaved with eviction and sync ticks. -/
def allowedC3 (P : String) : Op → Bool
  | .savePollResult pid _ _ _ _ _ => pid = P
  | .clearTick => true
  | .syncTick => true
  | _ => false

/-- Events allowed in the amended uniqueness claim: everything except
the three events that can drop a poll record (eviction pass, flush,
GC). -/
def allowedC4 : Op → Bool
  | .clearTick => false
  | .flushAndClose => false
  | .runGC => false
  | _ => true

/-- The result rows submitted for poll `P` along a trace, in order. -/
def savedResults (P : String) : List Op → List (List Int)
  | [] => []
  | .savePollResult pid _ _ results _ _ :: rest =>
      if pid = P then results :: savedResults P rest else savedResults P rest
  | _ :: rest => savedResults P rest

/-- The names submitted for poll `P` along a trace, in order. -/
def savedNames (P : String) : List Op → List String
  | [] => []
  | .savePollResult pid name _ _ _ _ :: rest =>
      if pid = P then name :: savedNames P rest else savedNames P rest
  | _ :: rest => savedNames P rest

/-- The comments submitted for poll `P` along a trace, in order. -/
def savedComments (P : String) : List Op → List String
  | [] => []
  | .savePollResult pid _ comment _ _ _ :: rest =>
      if pid = P then comment :: savedComments P rest else savedComments P rest
  | _ :: rest => savedComments P rest

/-- A store holding one configured poll `P`, used by witnesses. -/
def s1c : StoreState :=
  { cfg := cfg0
    memory := [("P", { emptyRecord 0 with Config := some [1] })]
    disk := []
    active := true
    now := 1 }

/-! ### Association-list lemmas -/

theorem getEntry_setEntry {α : Type} (m : List (String × α)) (k : String) (v : α)
    (j : String) :
    getEntry (setEntry m k v) j = if k = j then some v else getEntry m j := by
  induction m with
  | nil =>
      by_cases hj : k = j <;> simp [setEntry, getEntry, hj]
  | cons kv rest ih =>
      obtain ⟨k', v'⟩ := kv
      by_cases hk : k' = k
      · subst hk
        by_cases hj : k' = j <;> simp [setEntry, getEntry, hj]
      · by_cases hj : k' = j
        · subst hj
          have hkj : ¬ k = k' := fun h => hk h.symm
          simp [setEntry, getEntry, hk, hkj]
        · simp [setEntry, getEntry, hk, hj, ih]

theorem getEntry_delEntry {α : Type} (m : List (String × α)) (k j : String) :
    getEntry (delEntry m k) j = if j = k then none else getEntry m j := by
  induction m with
  | nil =>
      by_cases hj : j = k <;> simp [delEntry, getEntry, hj]
  | cons kv rest ih =>
      obtain ⟨k', v'⟩ := kv
      by_cases hk : k' = k
      · subst hk
        by_cases hj : j = k'
        · subst hj
          simp [delEntry, ih]
        · have hkj : ¬ k' = j := fun h => hj h.symm
          simp [delEntry, getEntry, hj, hkj, ih]
      · by_cases hj : j = k
        · subst hj
          have hkj : ¬ k' = j := fun h => hk h
          simp [delEntry, getEntry, hk, hkj, ih]
        · by_cases hj' : k' = j
          · subst hj'
            simp [delEntry, getEntry, hk, hj, ih]
          · simp [delEntry, getEntry, hk, hj, hj', ih]

theorem mem_setEntry {α : Type} {m : List (String × α)} {k : String} {v : α}
    {kv : String × α} (h : kv ∈ setEntry m k v) : kv ∈ m ∨ kv = (k, v) := by
  induction m with
  | nil => simpa [setEntry] using h
  | cons kv' rest ih =>
      obtain ⟨k', v'⟩ := kv'
      by_cases hk : k' = k
      · subst hk
        simp only [setEntry, if_true, eq_self_iff_true, List.mem_cons] at h
        rcases h with h | h
        · exact Or.inr h
        · exact Or.inl (List.mem_cons_of_mem _ h)
      · simp only [setEntry, if_neg hk, List.mem_cons] at h
        rcases h with h | h
        · exact Or.inl (by simp [h])
        · rcases ih h with h' | h'
          · exact Or.inl (List.mem_cons_of_mem _ h')
          · exact Or.inr h'

theorem mem_delEntry {α : Type} {m : List (String × α)} {k : String}
    {kv : String × α} (h : kv ∈ delEntry m k) : kv ∈ m := by
  induction m with
  | nil => simp [delEntry] at h
  | cons kv' rest ih =>
      obtain ⟨k', v'⟩ := kv'
      by_cases hk : k' = k
      · simp only [delEntry, if_pos hk] at h
        exact List.mem_cons_of_mem _ (ih h)
      · simp only [delEntry, if_neg hk, List.mem_cons] at h
        rcases h with h | h
        · exact h ▸ List.mem_cons_self _ _
        · exact List.mem_cons_of_mem _ (ih h)

theorem delEntry_sublist {α : Type} (m : List (String × α)) (k : String) :
    (delEntry m k).Sublist m := by
  induction m with
  | nil => simp [delEntry]
  | cons kv' rest ih =>
      obtain ⟨k', v'⟩ := kv'
      by_cases hk : k' = k
      · simp only [delEntry, if_pos hk]
        exact ih.cons _
      · simp only [delEntry, if_neg hk]
        exact ih.cons₂ _

theorem keys_setEntry_nodup {α : Type} {m : List (String × α)} (k : String) (v : α)
    (h : (m.map Prod.fst).Nodup) : ((setEntry m k v).map Prod.fst).Nodup := by
  induction m with
  | nil => simp [setEntry]
  | cons kv' rest ih =>
      obtain ⟨k', v'⟩ := kv'
      simp only [List.map_cons, List.nodup_cons] at h
      by_cases hk : k' = k
      · subst hk
        simpa [setEntry] using h
      · simp only [setEntry, if_neg hk, List.map_cons, List.nodup_cons]
        refine ⟨?_, ih h.2⟩
        intro hmem
        rcases List.mem_map.mp hmem with ⟨kv2, hkv2, hfst⟩
        rcases mem_setEntry hkv2 with h' | h'
        · exact h.1 (List.mem_map.mpr ⟨kv2, h', hfst⟩)
        · subst h'; exact hk hfst.symm

theorem keys_delEntry_nodup {α : Type} {m : List (String × α)} (k : String)
    (h : (m.map Prod.fst).Nodup) : ((delEntry m k).map Prod.fst).Nodup :=
  h.sublist ((delEntry_sublist m k).map Prod.fst)

theorem getEntry_mem {α : Type} {m : List (String × α)} {k : String} {v : α}
    (h : getEntry m k = some v) : (k, v) ∈ m := by
  induction m with
  | nil => simp [getEntry] at h
  | cons kv' rest ih =>
      obtain ⟨k', v'⟩ := kv'
      by_cases hk : k' = k
      · subst hk
        simp only [getEntry, if_true, eq_self_iff_true, Option.some.injEq] at h
        simp [h]
      · simp only [getEntry, if_neg hk] at h
        exact List.mem_cons_of_mem _ (ih h)

theorem mem_getEntry {α : Type} {m : List (String × α)} {kv : String × α}
    (hmem : kv ∈ m) (hnd : (m.map Prod.fst).Nodup) :
    getEntry m kv.1 = some kv.2 := by
  induction m with
  | nil => simp at hmem
  | cons kv' rest ih =>
      obtain ⟨k', v'⟩ := kv'
      simp only [List.map_cons, List.nodup_cons] at hnd
      rcases List.mem_cons.mp hmem with h | h
      · subst h
        simp [getEntry]
      · have hne : ¬ k' = kv.1 := by
          intro he
          exact hnd.1 (List.mem_map.mpr ⟨kv, h, he.symm⟩)
        simp [getEntry, hne, ih h hnd.2]

theorem getEntry_isSome_of_mem_keys {α : Type} {m : List (String × α)} {k : String}
    (h : k ∈ m.map Prod.fst) : ∃ v, getEntry m k = some v := by
  induction m with
  | nil => simp at h
  | cons kv' rest ih =>
      obtain ⟨k', v'⟩ := kv'
      by_cases hk : k' = k
      · subst hk; exact ⟨v', by simp [getEntry]⟩
      · simp only [List.map_cons, List.mem_cons] at h
        rcases h with h | h
        · exact absurd h.symm hk
        · simpa [getEntry, hk] using ih h

theorem getEntry_eq_none_of_not_mem_keys {α : Type} {m : List (String × α)} {k : String}
    (h : k ∉ m.map Prod.fst) : getEntry m k = none := by
  induction m with
  | nil => rfl
  | cons kv' rest ih =>
      obtain ⟨k', v'⟩ := kv'
      simp only [List.map_cons, List.mem_cons] at h
      push_neg at h
      have hne : ¬ k' = k := fun he => h.1 he.symm
      simp [getEntry, hne, ih h.2]

theorem length_delEntry {α : Type} {m : List (String × α)} {k : String} {v : α}
    (hmem : getEntry m k = some v) (hnd : (m.map Prod.fst).Nodup) :
    (delEntry m k).length = m.length - 1 := by
  induction m with
  | nil => simp [getEntry] at hmem
  | cons kv' rest ih =>
      obtain ⟨k', v'⟩ := kv'
      simp only [List.map_cons, List.nodup_cons] at hnd
      by_cases hk : k' = k
      · subst hk
        have hl : delEntry rest k' = rest := by
          have : k' ∉ rest.map Prod.fst := hnd.1
          clear ih hmem hnd
          induction rest with
          | nil => simp [delEntry]
          | cons kv2 rest2 ih2 =>
              obtain ⟨k2, v2⟩ := kv2
              simp only [List.map_cons, List.mem_cons] at this
              push_neg at this
              have hne : ¬ k2 = k' := fun he => this.1 he.symm
              simp [delEntry, hne, ih2 this.2]
        simp [delEntry, hl]
      · simp only [getEntry, if_neg hk] at hmem
        have hlen := ih hmem hnd.2
        have hrest : 1 ≤ rest.length := by
          rcases rest with _ | ⟨a, b⟩
          · simp [getEntry] at hmem
          · simp
        simp only [delEntry, if_neg hk, List.length_cons, hlen]
        omega

/-! ### lookupIndex lemmas -/

theorem lookupIndex_eq_none_iff (l : List String) (a : String) :
    lookupIndex l a = none ↔ a ∉ l := by
  induction l with
  | nil => simp [lookupIndex]
  | cons x xs ih =>
      by_cases hx : x = a
      · subst hx; simp [lookupIndex]
      · simp only [lookupIndex, if_neg hx, Option.map_eq_none', ih, List.mem_cons]
        constructor
        · intro h hc
          rcases hc with hc | hc
          · exact hx hc.symm
          · exact h hc
        · intro h hc
          exact h (Or.inr hc)

theorem lookupIndex_lt_length {l : List String} {a : String} {i : Nat}
    (h : lookupIndex l a = some i) : i < l.length := by
  induction l generalizing i with
  | nil => simp [lookupIndex] at h
  | cons x xs ih =>
      by_cases hx : x = a
      · subst hx
        simp only [lookupIndex, if_true, eq_self_iff_true, Option.some.injEq] at h
        subst h; simp
      · simp only [lookupIndex, if_neg hx] at h
        rcases Option.map_eq_some'.mp h with ⟨j, hj, hij⟩
        subst hij
        simpa using ih hj

theorem lookupIndex_get {l : List String} {a : String} {i : Nat}
    (h : lookupIndex l a = some i) : l.get? i = some a := by
  induction l generalizing i with
  | nil => simp [lookupIndex] at h
  | cons x xs ih =>
      by_cases hx : x = a
      · subst hx
        simp only [lookupIndex, if_true, eq_self_iff_true, Option.some.injEq] at h
        subst h; simp
      · simp only [lookupIndex, if_neg hx] at h
        rcases Option.map_eq_some'.mp h with ⟨j, hj, hij⟩
        subst hij
        simpa using ih hj

/-! ### Codec lemmas -/

theorem padTo_eq_self {l : List String} {n : Nat} (h : n ≤ l.length) :
    padTo l n = l := by
  simp [padTo, Nat.sub_eq_zero_of_le h]

theorem padTo_length (l : List String) (n : Nat) :
    (padTo l n).length = max l.length n := by
  simp only [padTo, List.length_append, List.length_replicate]
  omega





theorem recordWF_empty (now : Nat) : recordWF (emptyRecord now) := by
  simp [recordWF, emptyRecord]

theorem save_fileWF {p : FileMemoryPollResult} {f : FMFile} (hWF : recordWF p)
    (h : save p = some f) : fileWF f := by
  rcases hp : p.Config with _ | c
  · simp [save, hp] at h
  · simp only [save, hp, Option.some.injEq] at h
    subst h
    exact hWF

theorem load_recordWF {f : FMFile} (hWF : fileWF f) (now : Nat) :
    recordWF (load f now) := by
  obtain ⟨h1, h2, h3, h4⟩ := hWF
  refine ⟨by simp [load, loadFields, h1], by simp [load, loadFields, h2], ?_, ?_⟩
  · simp [load, loadFields, padTo_length, h1, h3]
  · simp [load, loadFields, padTo_length, h1, h4]

/-- Round trip of the codec on a record whose change-secret and
answer-id arrays are at least as long as the names array: every encoded
field is restored, except that a present-but-empty config decodes as
absent and `LastAccess` is refreshed. -/
theorem load_save {p : FileMemoryPollResult} {c : List Nat} {f : FMFile}
    (hc : p.Config = some c)
    (hch : p.Names.length ≤ p.Change.length) (hid : p.Names.length ≤ p.IDs.length)
    (h : save p = some f) (now : Nat) :
    load f now = { p with Config := decodeConfig c, LastAccess := now } := by
  simp only [save, hc, Option.some.injEq] at h
  subst h
  simp [load, loadFields, padTo_eq_self hch, padTo_eq_self hid]

/-! ### Decimal representation lemmas (for answer-id uniqueness) -/


theorem decRepr_ne_nil (n : Nat) : decRepr n ≠ [] := by
  rw [decRepr]
  split <;> simp

theorem decRepr_lt {n : Nat} (h : n < 10) : decRepr n = [Nat.digitChar n] := by
  rw [decRepr]
  simp [h]

theorem decRepr_ge {n : Nat} (h : ¬ n < 10) :
    decRepr n = decRepr (n / 10) ++ [Nat.digitChar (n % 10)] := by
  conv_lhs => rw [decRepr]
  simp [h]

theorem toDigitsCore_eq_decRepr (fuel n : Nat) (ds : List Char) (h : n < fuel) :
    Nat.toDigitsCore 10 fuel n ds = decRepr n ++ ds := by
  induction fuel generalizing n ds with
  | zero => omega
  | succ fuel ih =>
      rw [Nat.toDigitsCore]
      by_cases h10 : n / 10 = 0
      · have hn : n < 10 := by omega
        rw [if_pos h10, decRepr_lt hn, Nat.mod_eq_of_lt hn]
        simp
      · have hn : ¬ n < 10 := by omega
        have hlt : n / 10 < fuel := by omega
        rw [if_neg h10, ih _ _ hlt, decRepr_ge hn]
        simp

theorem repr_eq_decRepr (n : Nat) : (Nat.repr n).data = decRepr n := by
  have h := toDigitsCore_eq_decRepr (n + 1) n [] (Nat.lt_succ_self n)
  simp only [List.append_nil] at h
  simp [Nat.repr, Nat.toDigits, h, List.asString]

theorem digitChar_ne_dash {n : Nat} (h : n < 10) : Nat.digitChar n ≠ '-' := by
  interval_cases n <;> decide

theorem digitChar_inj {a b : Nat} (ha : a < 10) (hb : b < 10)
    (h : Nat.digitChar a = Nat.digitChar b) : a = b := by
  interval_cases a <;> interval_cases b <;> first | rfl | (exfalso; revert h; decide)

theorem decRepr_ne_dash (n : Nat) : ∀ c ∈ decRepr n, c ≠ '-' := by
  induction n using Nat.strong_induction_on with
  | _ n ih =>
      by_cases h : n < 10
      · rw [decRepr_lt h]
        simpa using digitChar_ne_dash h
      · rw [decRepr_ge h]
        simp only [List.mem_append, List.mem_singleton]
        intro c hc
        rcases hc with hc | hc
        · exact ih (n / 10) (Nat.div_lt_self (by omega) (by omega)) c hc
        · subst hc
          exact digitChar_ne_dash (Nat.mod_lt _ (by omega))

theorem decRepr_inj {m n : Nat} (h : decRepr m = decRepr n) : m = n := by
  induction m using Nat.strong_induction_on generalizing n with
  | _ m ih =>
      by_cases hm : m < 10 <;> by_cases hn : n < 10
      · rw [decRepr_lt hm, decRepr_lt hn] at h
        simp only [List.cons.injEq, and_true] at h
        exact digitChar_inj hm hn h
      · rw [decRepr_lt hm, decRepr_ge hn] at h
        have hlen := congrArg List.length h
        simp only [List.length_singleton, List.length_append] at hlen
        exact absurd (List.eq_nil_of_length_eq_zero (by omega))
          (decRepr_ne_nil (n / 10))
      · rw [decRepr_ge hm, decRepr_lt hn] at h
        have hlen := congrArg List.length h
        simp only [List.length_singleton, List.length_append] at hlen
        exact absurd (List.eq_nil_of_length_eq_zero (by omega))
          (decRepr_ne_nil (m / 10))
      · rw [decRepr_ge hm, decRepr_ge hn] at h
        rcases List.append_inj' h (by simp) with ⟨h1, h2⟩
        simp only [List.cons.injEq, and_true] at h2
        have hdiv := ih (m / 10) (Nat.div_lt_self (by omega) (by omega)) h1
        have hmod := digitChar_inj (Nat.mod_lt _ (by omega)) (Nat.mod_lt _ (by omega)) h2
        omega

theorem append_dash_inj {l1 l2 t1 t2 : List Char}
    (h1 : ∀ c ∈ l1, c ≠ '-') (h2 : ∀ c ∈ l2, c ≠ '-')
    (h : l1 ++ '-' :: t1 = l2 ++ '-' :: t2) : l1 = l2 ∧ t1 = t2 := by
  induction l1 generalizing l2 with
  | nil =>
      rcases l2 with _ | ⟨c, l2'⟩
      · simpa using h
      · simp only [List.nil_append, List.cons_append, List.cons.injEq] at h
        exact absurd h.1.symm (h2 c (List.mem_cons_self _ _))
  | cons c l1' ih =>
      rcases l2 with _ | ⟨c2, l2'⟩
      · simp only [List.cons_append, List.nil_append, List.cons.injEq] at h
        exact absurd h.1 (h1 c (List.mem_cons_self _ _))
      · simp only [List.cons_append, List.cons.injEq] at h
        obtain ⟨hc, hrest⟩ := h
        subst hc
        have := ih (fun c hc => h1 c (List.mem_cons_of_mem _ hc))
          (fun c hc => h2 c (List.mem_cons_of_mem _ hc)) hrest
        exact ⟨by rw [this.1], this.2⟩

/-- The counter prefix of an answer id determines the counter: two equal
answer ids have equal counters, whatever the random suffixes are. -/
theorem mkAnswerID_inj_left {m n : Nat} {s1 s2 : String}
    (h : mkAnswerID m s1 = mkAnswerID n s2) : m = n := by
  have hd : (Nat.repr m).data ++ '-' :: s1.data = (Nat.repr n).data ++ '-' :: s2.data := by
    have := congrArg String.data h
    simpa [mkAnswerID, String.data_append] using this
  rw [repr_eq_decRepr, repr_eq_decRepr] at hd
  exact decRepr_inj (append_dash_inj (decRepr_ne_dash m) (decRepr_ne_dash n) hd).1

/-! ### State invariant and effective records -/



theorem content_load (f : FMFile) (t t' : Nat) :
    content (load f t) = content (load f t') := by
  simp [content, load, loadFields]

theorem recordWF_of_content_eq {p q : FileMemoryPollResult}
    (h : content p = content q) (hWF : recordWF p) : recordWF q := by
  simp only [content, Prod.mk.injEq] at h
  obtain ⟨h1, h2, h3, _, _, _, h4, h5, _⟩ := h
  unfold recordWF at hWF ⊢
  rw [← h1, ← h2, ← h3, ← h4, ← h5]
  exact hWF

theorem effRecord_WF {s : StoreState} (hInv : stateInv s) (iid : String) :
    recordWF (effRecord s iid) := by
  unfold effRecord
  cases hmem : getEntry s.memory iid with
  | some p => exact hInv.1 _ (getEntry_mem hmem)
  | none =>
      cases hdisk : getEntry s.disk iid with
      | some f => exact load_recordWF (hInv.2.1 _ (getEntry_mem hdisk)) _
      | none => exact recordWF_empty _

theorem effRecord_set_now (s : StoreState) (t : Nat) (j : String) :
    content (effRecord { s with now := t } j) = content (effRecord s j) := by
  unfold effRecord
  cases hmem : getEntry s.memory j with
  | some p => simp [hmem]
  | none =>
      cases hdisk : getEntry s.disk j with
      | some f => simpa [hmem, hdisk] using content_load f t s.now
      | none => simp [hmem, hdisk, content, emptyRecord]

/-- Characterisation of a successful `testload`. -/
theorem testload_spec {s : StoreState} {pollID iid : String}
    (hg : getInternalID pollID = .ok iid) :
    ∃ s1, testload s pollID = .ok s1 ∧
      s1.cfg = s.cfg ∧ s1.disk = s.disk ∧ s1.active = s.active ∧ s1.now = s.now ∧
      getEntry s1.memory iid = some (effRecord s iid) ∧
      (∀ j, j ≠ iid → getEntry s1.memory j = getEntry s.memory j) ∧
      (∀ kv ∈ s1.memory, kv ∈ s.memory ∨ kv = (iid, effRecord s iid)) ∧
      ((s.memory.map Prod.fst).Nodup → (s1.memory.map Prod.fst).Nodup) := by
  cases hmem : getEntry s.memory iid with
  | some p =>
      refine ⟨s, by simp only [testload, hg, hmem], rfl, rfl, rfl, rfl, ?_,
        fun j _ => rfl, fun kv h => Or.inl h, fun h => h⟩
      unfold effRecord
      rw [hmem]
  | none =>
      cases hdisk : getEntry s.disk iid with
      | some f =>
          have heff : effRecord s iid = load f s.now := by
            unfold effRecord; rw [hmem, hdisk]
          refine ⟨{ s with memory := setEntry s.memory iid (load f s.now) },
            by simp only [testload, hg, hmem, hdisk], rfl, rfl, rfl, rfl,
            ?_, ?_, ?_, ?_⟩
          · simp [heff, getEntry_setEntry]
          · intro j hj
            simp only [getEntry_setEntry]
            rw [if_neg (fun h => hj h.symm)]
          · intro kv h
            rcases mem_setEntry h with h | h
            · exact Or.inl h
            · exact Or.inr (by rw [h, heff])
          · intro h
            exact keys_setEntry_nodup _ _ h
      | none =>
          have heff : effRecord s iid = emptyRecord s.now := by
            unfold effRecord; rw [hmem, hdisk]
          refine ⟨{ s with memory := setEntry s.memory iid (emptyRecord s.now) },
            by simp only [testload, hg, hmem, hdisk], rfl, rfl, rfl, rfl,
            ?_, ?_, ?_, ?_⟩
          · simp [heff, getEntry_setEntry]
          · intro j hj
            simp only [getEntry_setEntry]
            rw [if_neg (fun h => hj h.symm)]
          · intro kv h
            rcases mem_setEntry h with h | h
            · exact Or.inl h
            · exact Or.inr (by rw [h, heff])
          · intro h
            exact keys_setEntry_nodup _ _ h

/-- On an identifier containing the sentinel, `testload` fails with the
invalid-identifier error. -/
theorem testload_invalid {s : StoreState} {pollID : String}
    (hg : getInternalID pollID = .error .invalidID) :
    testload s pollID = .error .invalidID := by
  unfold testload
  rw [hg]

theorem getInternalID_error {pollID : String} {e : FMErr}
    (h : getInternalID pollID = .error e) : e = .invalidID := by
  unfold getInternalID at h
  split at h
  · cases h
    rfl
  · cases h

/-! ### Operation characterisations -/

theorem setAfterTestload {s s1 : StoreState} {iid : String}
    (hother : ∀ j, j ≠ iid → getEntry s1.memory j = getEntry s.memory j)
    (hmem : ∀ kv ∈ s1.memory, kv ∈ s.memory ∨ kv = (iid, effRecord s iid))
    (hnd : (s.memory.map Prod.fst).Nodup → (s1.memory.map Prod.fst).Nodup)
    (p' : FileMemoryPollResult) :
    getEntry (setEntry s1.memory iid p') iid = some p' ∧
    (∀ j, j ≠ iid → getEntry (setEntry s1.memory iid p') j = getEntry s.memory j) ∧
    (∀ kv ∈ setEntry s1.memory iid p',
        kv ∈ s.memory ∨ kv = (iid, effRecord s iid) ∨ kv = (iid, p')) ∧
    ((s.memory.map Prod.fst).Nodup →
        ((setEntry s1.memory iid p').map Prod.fst).Nodup) := by
  refine ⟨by simp [getEntry_setEntry], ?_, ?_, ?_⟩
  · intro j hj
    rw [getEntry_setEntry, if_neg (fun h => hj h.symm)]
    exact hother j hj
  · intro kv h
    rcases mem_setEntry h with h | h
    · rcases hmem kv h with h' | h'
      · exact Or.inl h'
      · exact Or.inr (Or.inl h')
    · exact Or.inr (Or.inr h)
  · intro h
    exact keys_setEntry_nodup _ _ (hnd h)

/-- Postcondition of a successful `SavePollResult`: exactly one row is
appended (results, name, comment, change secret), the counter is
incremented, `LastAccess` is refreshed, and the returned id is the
incremented counter, a dash and the random suffix. -/
theorem savePollResult_spec {s : StoreState} {pollID iid : String}
    (name comment : String) (results : List Int) (change suffix : String)
    (ha : s.active = true) (hg : getInternalID pollID = .ok iid) :
    ∃ s', savePollResult s pollID name comment results change suffix =
        (.ok (mkAnswerID ((effRecord s iid).AnswerCounter + 1) suffix), s') ∧
      s'.cfg = s.cfg ∧ s'.disk = s.disk ∧ s'.active = s.active ∧ s'.now = s.now ∧
      getEntry s'.memory iid = some { effRecord s iid with
        Data := (effRecord s iid).Data ++ [results]
        Names := (effRecord s iid).Names ++ [name]
        Comments := (effRecord s iid).Comments ++ [comment]
        Change := (effRecord s iid).Change ++ [change]
        AnswerCounter := (effRecord s iid).AnswerCounter + 1
        IDs := (effRecord s iid).IDs ++
          [mkAnswerID ((effRecord s iid).AnswerCounter + 1) suffix]
        LastAccess := s.now } ∧
      (∀ j, j ≠ iid → getEntry s'.memory j = getEntry s.memory j) ∧
      (∀ kv ∈ s'.memory, kv ∈ s.memory ∨ kv = (iid, effRecord s iid) ∨
          kv = (iid, { effRecord s iid with
            Data := (effRecord s iid).Data ++ [results]
            Names := (effRecord s iid).Names ++ [name]
            Comments := (effRecord s iid).Comments ++ [comment]
            Change := (effRecord s iid).Change ++ [change]
            AnswerCounter := (effRecord s iid).AnswerCounter + 1
            IDs := (effRecord s iid).IDs ++
              [mkAnswerID ((effRecord s iid).AnswerCounter + 1) suffix]
            LastAccess := s.now })) ∧
      ((s.memory.map Prod.fst).Nodup → (s'.memory.map Prod.fst).Nodup) := by
  obtain ⟨s1, htl, hcfg, hdisk, hact, hnow, hself, hother, hmem, hnd⟩ :=
    @testload_spec s _ _ hg
  obtain ⟨h1, h2, h3, h4⟩ := setAfterTestload hother hmem hnd
    { effRecord s iid with
      Data := (effRecord s iid).Data ++ [results]
      Names := (effRecord s iid).Names ++ [name]
      Comments := (effRecord s iid).Comments ++ [comment]
      Change := (effRecord s iid).Change ++ [change]
      AnswerCounter := (effRecord s iid).AnswerCounter + 1
      IDs := (effRecord s iid).IDs ++
        [mkAnswerID ((effRecord s iid).AnswerCounter + 1) suffix]
      LastAccess := s.now }
  refine ⟨{ s1 with memory := setEntry s1.memory iid
                                { effRecord s iid with
                                  Data := (effRecord s iid).Data ++ [results]
                                  Names := (effRecord s iid).Names ++ [name]
                                  Comments := (effRecord s iid).Comments ++ [comment]
                                  Change := (effRecord s iid).Change ++ [change]
                                  AnswerCounter := (effRecord s iid).AnswerCounter + 1
                                  IDs := (effRecord s iid).IDs ++
                                    [mkAnswerID ((effRecord s iid).AnswerCounter + 1) suffix]
                                  LastAccess := s.now } },
    ?_, hcfg, hdisk, hact, hnow, h1, h2, h3, h4⟩
  simp only [savePollResult, ha, Bool.not_true, Bool.false_eq_true, if_false,
    htl, hg, hself, Option.getD_some, hnow]

theorem savePollConfig_spec {s : StoreState} {pollID iid : String}
    (c : Option (List Nat))
    (ha : s.active = true) (hg : getInternalID pollID = .ok iid) :
    ∃ s', savePollConfig s pollID c = (.ok (), s') ∧
      s'.cfg = s.cfg ∧ s'.disk = s.disk ∧ s'.active = s.active ∧ s'.now = s.now ∧
      getEntry s'.memory iid =
        some { effRecord s iid with Config := c, LastAccess := s.now } ∧
      (∀ j, j ≠ iid → getEntry s'.memory j = getEntry s.memory j) ∧
      (∀ kv ∈ s'.memory, kv ∈ s.memory ∨ kv = (iid, effRecord s iid) ∨
          kv = (iid, { effRecord s iid with Config := c, LastAccess := s.now })) ∧
      ((s.memory.map Prod.fst).Nodup → (s'.memory.map Prod.fst).Nodup) := by
  obtain ⟨s1, htl, hcfg, hdisk, hact, hnow, hself, hother, hmem, hnd⟩ :=
    @testload_spec s _ _ hg
  obtain ⟨h1, h2, h3, h4⟩ := setAfterTestload hother hmem hnd
    { effRecord s iid with Config := c, LastAccess := s.now }
  refine ⟨{ s1 with memory := setEntry s1.memory iid
                                { effRecord s iid with Config := c, LastAccess := s.now } },
    ?_, hcfg, hdisk, hact, hnow, h1, h2, h3, h4⟩
  simp only [savePollConfig, ha, Bool.not_true, Bool.false_eq_true, if_false,
    htl, hg, hself, Option.getD_some, hnow]

theorem getPollResult_spec {s : StoreState} {pollID iid : String}
    (ha : s.active = true) (hg : getInternalID pollID = .ok iid) :
    ∃ s', getPollResult s pollID =
        (.ok ((effRecord s iid).Data, (effRecord s iid).Names,
          (effRecord s iid).Comments, (effRecord s iid).IDs), s') ∧
      s'.cfg = s.cfg ∧ s'.disk = s.disk ∧ s'.active = s.active ∧ s'.now = s.now ∧
      getEntry s'.memory iid = some { effRecord s iid with LastAccess := s.now } ∧
      (∀ j, j ≠ iid → getEntry s'.memory j = getEntry s.memory j) ∧
      (∀ kv ∈ s'.memory, kv ∈ s.memory ∨ kv = (iid, effRecord s iid) ∨
          kv = (iid, { effRecord s iid with LastAccess := s.now })) ∧
      ((s.memory.map Prod.fst).Nodup → (s'.memory.map Prod.fst).Nodup) := by
  obtain ⟨s1, htl, hcfg, hdisk, hact, hnow, hself, hother, hmem, hnd⟩ :=
    @testload_spec s _ _ hg
  obtain ⟨h1, h2, h3, h4⟩ := setAfterTestload hother hmem hnd
    { effRecord s iid with LastAccess := s.now }
  refine ⟨{ s1 with memory := setEntry s1.memory iid
                                { effRecord s iid with LastAccess := s.now } },
    ?_, hcfg, hdisk, hact, hnow, h1, h2, h3, h4⟩
  simp only [getPollResult, ha, Bool.not_true, Bool.false_eq_true, if_false,
    htl, hg, hself, Option.getD_some, hnow]

theorem getPollConfig_spec {s : StoreState} {pollID iid : String}
    (ha : s.active = true) (hg : getInternalID pollID = .ok iid) :
    ∃ s', getPollConfig s pollID = (.ok (effRecord s iid).Config, s') ∧
      s'.cfg = s.cfg ∧ s'.disk = s.disk ∧ s'.active = s.active ∧ s'.now = s.now ∧
      getEntry s'.memory iid = some { effRecord s iid with LastAccess := s.now } ∧
      (∀ j, j ≠ iid → getEntry s'.memory j = getEntry s.memory j) ∧
      (∀ kv ∈ s'.memory, kv ∈ s.memory ∨ kv = (iid, effRecord s iid) ∨
          kv = (iid, { effRecord s iid with LastAccess := s.now })) ∧
      ((s.memory.map Prod.fst).Nodup → (s'.memory.map Prod.fst).Nodup) := by
  obtain ⟨s1, htl, hcfg, hdisk, hact, hnow, hself, hother, hmem, hnd⟩ :=
    @testload_spec s _ _ hg
  obtain ⟨h1, h2, h3, h4⟩ := setAfterTestload hother hmem hnd
    { effRecord s iid with LastAccess := s.now }
  refine ⟨{ s1 with memory := setEntry s1.memory iid
                                { effRecord s iid with LastAccess := s.now } },
    ?_, hcfg, hdisk, hact, hnow, h1, h2, h3, h4⟩
  simp only [getPollConfig, ha, Bool.not_true, Bool.false_eq_true, if_false,
    htl, hg, hself, Option.getD_some, hnow]

theorem getPollCreator_spec {s : StoreState} {pollID iid : String}
    (ha : s.active = true) (hg : getInternalID pollID = .ok iid) :
    ∃ s', getPollCreator s pollID = (.ok (effRecord s iid).Creator, s') ∧
      s'.cfg = s.cfg ∧ s'.disk = s.disk ∧ s'.active = s.active ∧ s'.now = s.now ∧
      getEntry s'.memory iid = some { effRecord s iid with LastAccess := s.now } ∧
      (∀ j, j ≠ iid → getEntry s'.memory j = getEntry s.memory j) ∧
      (∀ kv ∈ s'.memory, kv ∈ s.memory ∨ kv = (iid, effRecord s iid) ∨
          kv = (iid, { effRecord s iid with LastAccess := s.now })) ∧
      ((s.memory.map Prod.fst).Nodup → (s'.memory.map Prod.fst).Nodup) := by
  obtain ⟨s1, htl, hcfg, hdisk, hact, hnow, hself, hother, hmem, hnd⟩ :=
    @testload_spec s _ _ hg
  obtain ⟨h1, h2, h3, h4⟩ := setAfterTestload hother hmem hnd
    { effRecord s iid with LastAccess := s.now }
  refine ⟨{ s1 with memory := setEntry s1.memory iid
                                { effRecord s iid with LastAccess := s.now } },
    ?_, hcfg, hdisk, hact, hnow, h1, h2, h3, h4⟩
  simp only [getPollCreator, ha, Bool.not_true, Bool.false_eq_true, if_false,
    htl, hg, hself, Option.getD_some, hnow]

theorem savePollCreator_spec {s : StoreState} {pollID iid : String} (name : String)
    (ha : s.active = true) (hg : getInternalID pollID = .ok iid) :
    ∃ s', savePollCreator s pollID name = (.ok (), s') ∧
      s'.cfg = s.cfg ∧ s'.disk = s.disk ∧ s'.active = s.active ∧ s'.now = s.now ∧
      getEntry s'.memory iid =
        some { effRecord s iid with Creator := name, LastAccess := s.now } ∧
      (∀ j, j ≠ iid → getEntry s'.memory j = getEntry s.memory j) ∧
      (∀ kv ∈ s'.memory, kv ∈ s.memory ∨ kv = (iid, effRecord s iid) ∨
          kv = (iid, { effRecord s iid with Creator := name, LastAccess := s.now })) ∧
      ((s.memory.map Prod.fst).Nodup → (s'.memory.map Prod.fst).Nodup) := by
  obtain ⟨s1, htl, hcfg, hdisk, hact, hnow, hself, hother, hmem, hnd⟩ :=
    @testload_spec s _ _ hg
  obtain ⟨h1, h2, h3, h4⟩ := setAfterTestload hother hmem hnd
    { effRecord s iid with Creator := name, LastAccess := s.now }
  refine ⟨{ s1 with memory := setEntry s1.memory iid
                                { effRecord s iid with Creator := name, LastAccess := s.now } },
    ?_, hcfg, hdisk, hact, hnow, h1, h2, h3, h4⟩
  simp only [savePollCreator, ha, Bool.not_true, Bool.false_eq_true, if_false,
    htl, hg, hself, Option.getD_some, hnow]

theorem markPollDeleted_spec {s : StoreState} {pollID iid : String}
    (ha : s.active = true) (hg : getInternalID pollID = .ok iid) :
    ∃ s', markPollDeleted s pollID = (.ok (), s') ∧
      s'.cfg = s.cfg ∧ s'.disk = s.disk ∧ s'.active = s.active ∧ s'.now = s.now ∧
      getEntry s'.memory iid = some { effRecord s iid with
        Deleted := true, Creator := "", LastAccess := s.now } ∧
      (∀ j, j ≠ iid → getEntry s'.memory j = getEntry s.memory j) ∧
      (∀ kv ∈ s'.memory, kv ∈ s.memory ∨ kv = (iid, effRecord s iid) ∨
          kv = (iid, { effRecord s iid with
            Deleted := true, Creator := "", LastAccess := s.now })) ∧
      ((s.memory.map Prod.fst).Nodup → (s'.memory.map Prod.fst).Nodup) := by
  obtain ⟨s1, htl, hcfg, hdisk, hact, hnow, hself, hother, hmem, hnd⟩ :=
    @testload_spec s _ _ hg
  obtain ⟨h1, h2, h3, h4⟩ := setAfterTestload hother hmem hnd
    { effRecord s iid with Deleted := true, Creator := "", LastAccess := s.now }
  refine ⟨{ s1 with memory := setEntry s1.memory iid
                                { effRecord s iid with Deleted := true, Creator := "", LastAccess := s.now } },
    ?_, hcfg, hdisk, hact, hnow, h1, h2, h3, h4⟩
  simp only [markPollDeleted, ha, Bool.not_true, Bool.false_eq_true, if_false,
    htl, hg, hself, Option.getD_some, hnow]

/-- A failed row lookup (`answerID` not among the poll's ids) makes
`OverwritePollResult` return the invalid-id error and leave the record
unchanged (only `testload` may have pulled it into memory). -/
theorem overwritePollResult_notFound {s : StoreState} {pollID iid : String}
    (answerID name comment : String) (results : List Int) (change : String)
    (ha : s.active = true) (hg : getInternalID pollID = .ok iid)
    (hlk : lookupIndex (effRecord s iid).IDs answerID = none) :
    ∃ s', overwritePollResult s pollID answerID name comment results change =
        (.error .invalidID, s') ∧
      s'.cfg = s.cfg ∧ s'.disk = s.disk ∧ s'.active = s.active ∧ s'.now = s.now ∧
      getEntry s'.memory iid = some (effRecord s iid) ∧
      (∀ j, j ≠ iid → getEntry s'.memory j = getEntry s.memory j) ∧
      (∀ kv ∈ s'.memory, kv ∈ s.memory ∨ kv = (iid, effRecord s iid)) ∧
      ((s.memory.map Prod.fst).Nodup → (s'.memory.map Prod.fst).Nodup) := by
  obtain ⟨s1, htl, hcfg, hdisk, hact, hnow, hself, hother, hmem, hnd⟩ :=
    @testload_spec s _ _ hg
  refine ⟨s1, ?_, hcfg, hdisk, hact, hnow, hself, hother, hmem, hnd⟩
  simp only [overwritePollResult, ha, Bool.not_true, Bool.false_eq_true, if_false,
    htl, hg, hself, Option.getD_some, hlk]

theorem overwritePollResult_found {s : StoreState} {pollID iid : String}
    {answerID : String} {i : Nat} (name comment : String) (results : List Int)
    (change : String)
    (ha : s.active = true) (hg : getInternalID pollID = .ok iid)
    (hlk : lookupIndex (effRecord s iid).IDs answerID = some i) :
    ∃ s', overwritePollResult s pollID answerID name comment results change =
        (.ok (), s') ∧
      s'.cfg = s.cfg ∧ s'.disk = s.disk ∧ s'.active = s.active ∧ s'.now = s.now ∧
      getEntry s'.memory iid = some { effRecord s iid with
        Data := (effRecord s iid).Data.set i results
        Names := (effRecord s iid).Names.set i name
        Comments := (effRecord s iid).Comments.set i comment
        Change := (effRecord s iid).Change.set i change
        LastAccess := s.now } ∧
      (∀ j, j ≠ iid → getEntry s'.memory j = getEntry s.memory j) ∧
      (∀ kv ∈ s'.memory, kv ∈ s.memory ∨ kv = (iid, effRecord s iid) ∨
          kv = (iid, { effRecord s iid with
            Data := (effRecord s iid).Data.set i results
            Names := (effRecord s iid).Names.set i name
            Comments := (effRecord s iid).Comments.set i comment
            Change := (effRecord s iid).Change.set i change
            LastAccess := s.now })) ∧
      ((s.memory.map Prod.fst).Nodup → (s'.memory.map Prod.fst).Nodup) := by
  obtain ⟨s1, htl, hcfg, hdisk, hact, hnow, hself, hother, hmem, hnd⟩ :=
    @testload_spec s _ _ hg
  obtain ⟨h1, h2, h3, h4⟩ := setAfterTestload hother hmem hnd
    { effRecord s iid with
      Data := (effRecord s iid).Data.set i results
      Names := (effRecord s iid).Names.set i name
      Comments := (effRecord s iid).Comments.set i comment
      Change := (effRecord s iid).Change.set i change
      LastAccess := s.now }
  refine ⟨{ s1 with memory := setEntry s1.memory iid
                                { effRecord s iid with
                                  Data := (effRecord s iid).Data.set i results
                                  Names := (effRecord s iid).Names.set i name
                                  Comments := (effRecord s iid).Comments.set i comment
                                  Change := (effRecord s iid).Change.set i change
                                  LastAccess := s.now } },
    ?_, hcfg, hdisk, hact, hnow, h1, h2, h3, h4⟩
  simp only [overwritePollResult, ha, Bool.not_true, Bool.false_eq_true, if_false,
    htl, hg, hself, Option.getD_some, hlk, hnow]

theorem getSinglePollResult_notFound {s : StoreState} {pollID iid : String}
    (answerID : String)
    (ha : s.active = true) (hg : getInternalID pollID = .ok iid)
    (hlk : lookupIndex (effRecord s iid).IDs answerID = none) :
    ∃ s', getSinglePollResult s pollID answerID = (.error .invalidID, s') ∧
      s'.cfg = s.cfg ∧ s'.disk = s.disk ∧ s'.active = s.active ∧ s'.now = s.now ∧
      getEntry s'.memory iid = some (effRecord s iid) ∧
      (∀ j, j ≠ iid → getEntry s'.memory j = getEntry s.memory j) ∧
      (∀ kv ∈ s'.memory, kv ∈ s.memory ∨ kv = (iid, effRecord s iid)) ∧
      ((s.memory.map Prod.fst).Nodup → (s'.memory.map Prod.fst).Nodup) := by
  obtain ⟨s1, htl, hcfg, hdisk, hact, hnow, hself, hother, hmem, hnd⟩ :=
    @testload_spec s _ _ hg
  refine ⟨s1, ?_, hcfg, hdisk, hact, hnow, hself, hother, hmem, hnd⟩
  simp only [getSinglePollResult, ha, Bool.not_true, Bool.false_eq_true, if_false,
    htl, hg, hself, Option.getD_some, hlk]

theorem getSinglePollResult_found {s : StoreState} {pollID iid : String}
    {answerID : String} {i : Nat}
    (ha : s.active = true) (hg : getInternalID pollID = .ok iid)
    (hlk : lookupIndex (effRecord s iid).IDs answerID = some i) :
    ∃ s', getSinglePollResult s pollID answerID =
        (.ok ((effRecord s iid).Data.getD i [], (effRecord s iid).Names.getD i "",
          (effRecord s iid).Comments.getD i ""), s') ∧
      s'.cfg = s.cfg ∧ s'.disk = s.disk ∧ s'.active = s.active ∧ s'.now = s.now ∧
      getEntry s'.memory iid = some { effRecord s iid with LastAccess := s.now } ∧
      (∀ j, j ≠ iid → getEntry s'.memory j = getEntry s.memory j) ∧
      (∀ kv ∈ s'.memory, kv ∈ s.memory ∨ kv = (iid, effRecord s iid) ∨
          kv = (iid, { effRecord s iid with LastAccess := s.now })) ∧
      ((s.memory.map Prod.fst).Nodup → (s'.memory.map Prod.fst).Nodup) := by
  obtain ⟨s1, htl, hcfg, hdisk, hact, hnow, hself, hother, hmem, hnd⟩ :=
    @testload_spec s _ _ hg
  obtain ⟨h1, h2, h3, h4⟩ := setAfterTestload hother hmem hnd
    { effRecord s iid with LastAccess := s.now }
  refine ⟨{ s1 with memory := setEntry s1.memory iid
                                { effRecord s iid with LastAccess := s.now } },
    ?_, hcfg, hdisk, hact, hnow, h1, h2, h3, h4⟩
  simp only [getSinglePollResult, ha, Bool.not_true, Bool.false_eq_true, if_false,
    htl, hg, hself, Option.getD_some, hlk, hnow]

theorem deleteAnswer_notFound {s : StoreState} {pollID iid : String}
    (answerID : String)
    (ha : s.active = true) (hg : getInternalID pollID = .ok iid)
    (hlk : lookupIndex (effRecord s iid).IDs answerID = none) :
    ∃ s', deleteAnswer s pollID answerID = (.error .invalidID, s') ∧
      s'.cfg = s.cfg ∧ s'.disk = s.disk ∧ s'.active = s.active ∧ s'.now = s.now ∧
      getEntry s'.memory iid = some (effRecord s iid) ∧
      (∀ j, j ≠ iid → getEntry s'.memory j = getEntry s.memory j) ∧
      (∀ kv ∈ s'.memory, kv ∈ s.memory ∨ kv = (iid, effRecord s iid)) ∧
      ((s.memory.map Prod.fst).Nodup → (s'.memory.map Prod.fst).Nodup) := by
  obtain ⟨s1, htl, hcfg, hdisk, hact, hnow, hself, hother, hmem, hnd⟩ :=
    @testload_spec s _ _ hg
  refine ⟨s1, ?_, hcfg, hdisk, hact, hnow, hself, hother, hmem, hnd⟩
  simp only [deleteAnswer, ha, Bool.not_true, Bool.false_eq_true, if_false,
    htl, hg, hself, Option.getD_some, hlk]

theorem deleteAnswer_found {s : StoreState} {pollID iid : String}
    {answerID : String} {i : Nat}
    (ha : s.active = true) (hg : getInternalID pollID = .ok iid)
    (hlk : lookupIndex (effRecord s iid).IDs answerID = some i) :
    ∃ s', deleteAnswer s pollID answerID = (.ok (), s') ∧
      s'.cfg = s.cfg ∧ s'.disk = s.disk ∧ s'.active = s.active ∧ s'.now = s.now ∧
      getEntry s'.memory iid = some { effRecord s iid with
        LastAccess := s.now
        Data := (effRecord s iid).Data.eraseIdx i
        Names := (effRecord s iid).Names.eraseIdx i
        Comments := (effRecord s iid).Comments.eraseIdx i
        Change := (effRecord s iid).Change.eraseIdx i
        IDs := (effRecord s iid).IDs.eraseIdx i } ∧
      (∀ j, j ≠ iid → getEntry s'.memory j = getEntry s.memory j) ∧
      (∀ kv ∈ s'.memory, kv ∈ s.memory ∨ kv = (iid, effRecord s iid) ∨
          kv = (iid, { effRecord s iid with
            LastAccess := s.now
            Data := (effRecord s iid).Data.eraseIdx i
            Names := (effRecord s iid).Names.eraseIdx i
            Comments := (effRecord s iid).Comments.eraseIdx i
            Change := (effRecord s iid).Change.eraseIdx i
            IDs := (effRecord s iid).IDs.eraseIdx i })) ∧
      ((s.memory.map Prod.fst).Nodup → (s'.memory.map Prod.fst).Nodup) := by
  obtain ⟨s1, htl, hcfg, hdisk, hact, hnow, hself, hother, hmem, hnd⟩ :=
    @testload_spec s _ _ hg
  obtain ⟨h1, h2, h3, h4⟩ := setAfterTestload hother hmem hnd
    { effRecord s iid with
      LastAccess := s.now
      Data := (effRecord s iid).Data.eraseIdx i
      Names := (effRecord s iid).Names.eraseIdx i
      Comments := (effRecord s iid).Comments.eraseIdx i
      Change := (effRecord s iid).Change.eraseIdx i
      IDs := (effRecord s iid).IDs.eraseIdx i }
  refine ⟨{ s1 with memory := setEntry s1.memory iid
                                { effRecord s iid with
                                  LastAccess := s.now
                                  Data := (effRecord s iid).Data.eraseIdx i
                                  Names := (effRecord s iid).Names.eraseIdx i
                                  Comments := (effRecord s iid).Comments.eraseIdx i
                                  Change := (effRecord s iid).Change.eraseIdx i
                                  IDs := (effRecord s iid).IDs.eraseIdx i } },
    ?_, hcfg, hdisk, hact, hnow, h1, h2, h3, h4⟩
  simp only [deleteAnswer, ha, Bool.not_true, Bool.false_eq_true, if_false,
    htl, hg, hself, Option.getD_some, hlk, hnow]

theorem getChange_notFound {s : StoreState} {pollID iid : String}
    (answerID : String)
    (ha : s.active = true) (hg : getInternalID pollID = .ok iid)
    (hlk : lookupIndex (effRecord s iid).IDs answerID = none) :
    ∃ s', getChange s pollID answerID = (.error .invalidID, s') ∧
      s'.cfg = s.cfg ∧ s'.disk = s.disk ∧ s'.active = s.active ∧ s'.now = s.now ∧
      getEntry s'.memory iid = some (effRecord s iid) ∧
      (∀ j, j ≠ iid → getEntry s'.memory j = getEntry s.memory j) ∧
      (∀ kv ∈ s'.memory, kv ∈ s.memory ∨ kv = (iid, effRecord s iid)) ∧
      ((s.memory.map Prod.fst).Nodup → (s'.memory.map Prod.fst).Nodup) := by
  obtain ⟨s1, htl, hcfg, hdisk, hact, hnow, hself, hother, hmem, hnd⟩ :=
    @testload_spec s _ _ hg
  refine ⟨s1, ?_, hcfg, hdisk, hact, hnow, hself, hother, hmem, hnd⟩
  simp only [getChange, ha, Bool.not_true, Bool.false_eq_true, if_false,
    htl, hg, hself, Option.getD_some, hlk]

theorem getChange_found {s : StoreState} {pollID iid : String}
    {answerID : String} {i : Nat}
    (ha : s.active = true) (hg : getInternalID pollID = .ok iid)
    (hlk : lookupIndex (effRecord s iid).IDs answerID = some i) :
    ∃ s', getChange s pollID answerID =
        (.ok ((effRecord s iid).Change.getD i ""), s') ∧
      s'.cfg = s.cfg ∧ s'.disk = s.disk ∧ s'.active = s.active ∧ s'.now = s.now ∧
      getEntry s'.memory iid = some (effRecord s iid) ∧
      (∀ j, j ≠ iid → getEntry s'.memory j = getEntry s.memory j) ∧
      (∀ kv ∈ s'.memory, kv ∈ s.memory ∨ kv = (iid, effRecord s iid)) ∧
      ((s.memory.map Prod.fst).Nodup → (s'.memory.map Prod.fst).Nodup) := by
  obtain ⟨s1, htl, hcfg, hdisk, hact, hnow, hself, hother, hmem, hnd⟩ :=
    @testload_spec s _ _ hg
  refine ⟨s1, ?_, hcfg, hdisk, hact, hnow, hself, hother, hmem, hnd⟩
  simp only [getChange, ha, Bool.not_true, Bool.false_eq_true, if_false,
    htl, hg, hself, Option.getD_some, hlk]

/-! ### Invariant preservation -/

theorem stateInv_of_memUpdate {s s' : StoreState} {iid : String}
    {pNew : FileMemoryPollResult} (hInv : stateInv s)
    (hdisk : s'.disk = s.disk)
    (hmem : ∀ kv ∈ s'.memory,
        kv ∈ s.memory ∨ kv = (iid, effRecord s iid) ∨ kv = (iid, pNew))
    (hWFnew : recordWF pNew)
    (hnd : (s.memory.map Prod.fst).Nodup → (s'.memory.map Prod.fst).Nodup) :
    stateInv s' := by
  obtain ⟨hm, hd, hn1, hn2⟩ := hInv
  refine ⟨?_, ?_, hnd hn1, ?_⟩
  · intro kv hkv
    rcases hmem kv hkv with h | h | h
    · exact hm kv h
    · rw [h]
      exact effRecord_WF ⟨hm, hd, hn1, hn2⟩ iid
    · rw [h]
      exact hWFnew
  · intro kv hkv
    rw [hdisk] at hkv
    exact hd kv hkv
  · rw [hdisk]
    exact hn2

theorem recordWF_saveRow {p : FileMemoryPollResult} (hWF : recordWF p)
    (results : List Int) (name comment change id : String) (t : Nat) :
    recordWF { p with
      Data := p.Data ++ [results], Names := p.Names ++ [name]
      Comments := p.Comments ++ [comment], Change := p.Change ++ [change]
      AnswerCounter := p.AnswerCounter + 1, IDs := p.IDs ++ [id], LastAccess := t } := by
  obtain ⟨h1, h2, h3, h4⟩ := hWF
  simp [recordWF, h1, h2, h3, h4]

theorem recordWF_overwriteRow {p : FileMemoryPollResult} (hWF : recordWF p)
    (i : Nat) (results : List Int) (name comment change : String) (t : Nat) :
    recordWF { p with
      Data := p.Data.set i results, Names := p.Names.set i name
      Comments := p.Comments.set i comment, Change := p.Change.set i change
      LastAccess := t } := by
  obtain ⟨h1, h2, h3, h4⟩ := hWF
  simp [recordWF, h1, h2, h3, h4]

theorem recordWF_eraseRow {p : FileMemoryPollResult} (hWF : recordWF p)
    (i : Nat) (t : Nat) :
    recordWF { p with
      LastAccess := t
      Data := p.Data.eraseIdx i, Names := p.Names.eraseIdx i
      Comments := p.Comments.eraseIdx i, Change := p.Change.eraseIdx i
      IDs := p.IDs.eraseIdx i } := by
  obtain ⟨h1, h2, h3, h4⟩ := hWF
  simp [recordWF, List.length_eraseIdx, h1, h2, h3, h4]

theorem recordWF_setConfig {p : FileMemoryPollResult} (hWF : recordWF p)
    (c : Option (List Nat)) (t : Nat) :
    recordWF { p with Config := c, LastAccess := t } := hWF

theorem recordWF_setCreator {p : FileMemoryPollResult} (hWF : recordWF p)
    (name : String) (t : Nat) :
    recordWF { p with Creator := name, LastAccess := t } := hWF

theorem recordWF_setDeleted {p : FileMemoryPollResult} (hWF : recordWF p) (t : Nat) :
    recordWF { p with Deleted := true, Creator := "", LastAccess := t } := hWF

theorem recordWF_touch {p : FileMemoryPollResult} (hWF : recordWF p) (t : Nat) :
    recordWF { p with LastAccess := t } := hWF

theorem stateInv_set_now {s : StoreState} (hInv : stateInv s) (t : Nat) :
    stateInv { s with now := t } := hInv

/-! ### Worker event lemmas -/

theorem saveToDisk_memory (s : StoreState) (id : String) :
    (saveToDisk s id).memory = s.memory ∧ (saveToDisk s id).cfg = s.cfg ∧
      (saveToDisk s id).active = s.active ∧ (saveToDisk s id).now = s.now := by
  cases hp : getEntry s.memory id with
  | none => simp [saveToDisk, hp]
  | some p =>
      cases hf : save p with
      | none => simp [saveToDisk, hp, hf]
      | some f => simp [saveToDisk, hp, hf]

theorem saveToDisk_disk_ne (s : StoreState) (id j : String) (hj : j ≠ id) :
    getEntry (saveToDisk s id).disk j = getEntry s.disk j := by
  cases hp : getEntry s.memory id with
  | none => simp [saveToDisk, hp]
  | some p =>
      cases hf : save p with
      | none => simp [saveToDisk, hp, hf]
      | some f =>
          simp only [saveToDisk, hp, hf, getEntry_setEntry]
          rw [if_neg (fun h => hj h.symm)]

theorem saveToDisk_disk_self {s : StoreState} {id : String}
    {p : FileMemoryPollResult} (hp : getEntry s.memory id = some p) :
    getEntry (saveToDisk s id).disk id =
      match save p with
      | some f => some f
      | none => getEntry s.disk id := by
  cases hf : save p with
  | none => simp [saveToDisk, hp, hf]
  | some f => simp [saveToDisk, hp, hf, getEntry_setEntry]

theorem stateInv_saveToDisk {s : StoreState} (hInv : stateInv s) (id : String) :
    stateInv (saveToDisk s id) := by
  obtain ⟨hm, hd, hn1, hn2⟩ := hInv
  cases hp : getEntry s.memory id with
  | none =>
      simp only [saveToDisk, hp]
      exact ⟨hm, hd, hn1, hn2⟩
  | some p =>
      cases hf : save p with
      | none =>
          simp only [saveToDisk, hp, hf]
          exact ⟨hm, hd, hn1, hn2⟩
      | some f =>
          simp only [saveToDisk, hp, hf]
          refine ⟨hm, ?_, hn1, keys_setEntry_nodup _ _ hn2⟩
          intro kv hkv
          rcases mem_setEntry hkv with h | h
          · exact hd kv h
          · rw [h]
            exact save_fileWF (hm _ (getEntry_mem hp)) hf

theorem stateInv_evictOne {s : StoreState} (hInv : stateInv s) (id : String) :
    stateInv (evictOne s id) := by
  have h1 := stateInv_saveToDisk hInv id
  obtain ⟨hm, hd, hn1, hn2⟩ := h1
  refine ⟨?_, hd, ?_, hn2⟩
  · intro kv hkv
    exact hm kv (mem_delEntry hkv)
  · exact keys_delEntry_nodup _ hn1

theorem evictOne_cfg (s : StoreState) (id : String) :
    (evictOne s id).cfg = s.cfg ∧ (evictOne s id).active = s.active ∧
      (evictOne s id).now = s.now := by
  obtain ⟨-, h2, h3, h4⟩ := saveToDisk_memory s id
  exact ⟨h2, h3, h4⟩

theorem stateInv_evictLoop {target : Nat} :
    ∀ (l : List (String × Nat)) {s : StoreState}, stateInv s →
      stateInv (evictLoop target s l) := by
  intro l
  induction l with
  | nil => intro s h; exact h
  | cons e rest ih =>
      intro s h
      unfold evictLoop
      by_cases hc : s.memory.length ≤ target
      · rw [if_pos hc]; exact h
      · rw [if_neg hc]
        exact ih (stateInv_evictOne h e.1)

theorem stateInv_clearTick {s : StoreState} (hInv : stateInv s) :
    stateInv (clearTick s) := by
  unfold clearTick
  by_cases hc : s.memory.length ≤ s.cfg.MaximumMemory
  · rw [if_pos hc]; exact hInv
  · rw [if_neg hc]
    exact stateInv_evictLoop _ hInv

theorem stateInv_saveFold {l : List (String × FileMemoryPollResult)} :
    ∀ {s : StoreState}, stateInv s →
      stateInv (l.foldl (fun acc kv => saveToDisk acc kv.1) s) := by
  induction l with
  | nil => intro s h; exact h
  | cons e rest ih =>
      intro s h
      exact ih (stateInv_saveToDisk h e.1)

theorem stateInv_syncTick {s : StoreState} (hInv : stateInv s) :
    stateInv (syncTick s) := stateInv_saveFold hInv

theorem stateInv_flushAndClose {s : StoreState} (hInv : stateInv s) :
    stateInv (flushAndClose s) := by
  unfold flushAndClose
  by_cases hc : s.active
  · simp only [hc, Bool.not_true, Bool.false_eq_true, if_false]
    have h1 := @stateInv_saveFold s.memory _ hInv
    obtain ⟨hm, hd, hn1, hn2⟩ := h1
    exact ⟨by simp, hd, by simp, hn2⟩
  · simp only [Bool.not_eq_true] at hc
    simp only [hc, Bool.not_false, if_true]
    exact hInv

theorem stateInv_gcFold {l : List (String × FileMemoryPollResult)} :
    ∀ {s : StoreState}, stateInv s →
      stateInv (l.foldl
        (fun acc kv => if kv.2.Deleted then evictOne acc kv.1 else acc) s) := by
  induction l with
  | nil => intro s h; exact h
  | cons e rest ih =>
      intro s h
      by_cases hdel : e.2.Deleted
      · simp only [List.foldl_cons, hdel, if_true]
        exact ih (stateInv_evictOne h e.1)
      · simp only [List.foldl_cons, hdel, if_false]
        exact ih h

theorem stateInv_runGC {s : StoreState} (hInv : stateInv s) :
    stateInv (runGC s).2 := by
  unfold runGC
  by_cases hc : s.active
  · simp only [hc, Bool.not_true, Bool.false_eq_true, if_false]
    have h1 : stateInv (gcPhase1 s) := stateInv_gcFold hInv
    obtain ⟨hm, hd, hn1, hn2⟩ := h1
    refine ⟨hm, ?_, hn1, ?_⟩
    · intro kv hkv
      exact hd kv (List.mem_of_mem_filter hkv)
    · exact hn2.sublist ((List.filter_sublist _).map Prod.fst)
  · simp only [Bool.not_eq_true] at hc
    simp only [hc, Bool.not_false, if_true]
    exact hInv

/-! ### Error paths -/

/-- A public operation on an inactive store fails with the not-active
error and leaves the state unchanged. -/
theorem applyOp_notActive {s : StoreState} {op : Op} {pollID : String}
    (ha : s.active = false) (hop : opPollID op = some pollID) :
    applyOp s op = (.error .notActive, s) := by
  cases op <;> simp_all [applyOp, opPollID, savePollResult, overwritePollResult,
    getPollResult, getSinglePollResult, deleteAnswer, savePollConfig,
    getPollConfig, savePollCreator, getPollCreator, markPollDeleted, getChange,
    Except.map]

/-- A public operation on a key containing the sentinel fails with the
invalid-identifier error and leaves the state unchanged. -/
theorem applyOp_invalid {s : StoreState} {op : Op} {pollID : String}
    (ha : s.active = true) (hop : opPollID op = some pollID)
    (hg : getInternalID pollID = .error .invalidID) :
    applyOp s op = (.error .invalidID, s) := by
  have htl : testload s pollID = .error .invalidID := testload_invalid hg
  cases op <;> simp_all [applyOp, opPollID, savePollResult, overwritePollResult,
    getPollResult, getSinglePollResult, deleteAnswer, savePollConfig,
    getPollConfig, savePollCreator, getPollCreator, markPollDeleted, getChange,
    Except.map]

theorem stateInv_applyOp {s : StoreState} (hInv : stateInv s) (op : Op) :
    stateInv (applyOp s op).2 := by
  have hInvPres : ∀ s' : StoreState, applyOp s op = (.error .notActive, s') → True := fun _ _ => trivial
  clear hInvPres
  cases op with
  | savePollResult pollID name comment results change suffix =>
      by_cases ha : s.active = true
      · cases hg : getInternalID pollID with
        | error e =>
            have he := getInternalID_error hg
            subst he
            rw [@applyOp_invalid _ (Op.savePollResult pollID name comment results change suffix) _ ha rfl hg]
            exact hInv
        | ok iid =>
            obtain ⟨s', hop, hcfg, hdisk, hact, hnow, hself, hother, hmem, hnd⟩ :=
              savePollResult_spec name comment results change suffix ha hg
            have h2 : (applyOp s
                (.savePollResult pollID name comment results change suffix)).2 = s' := by
              simp [applyOp, hop]
            rw [h2]
            exact stateInv_of_memUpdate hInv hdisk hmem
              (recordWF_saveRow (effRecord_WF hInv iid) _ _ _ _ _ _) hnd
      · rw [@applyOp_notActive _ (Op.savePollResult pollID name comment results change suffix) _ (by simpa using ha) rfl]
        exact hInv
  | overwritePollResult pollID answerID name comment results change =>
      by_cases ha : s.active = true
      · cases hg : getInternalID pollID with
        | error e =>
            have he := getInternalID_error hg
            subst he
            rw [@applyOp_invalid _ (Op.overwritePollResult pollID answerID name comment results change) _ ha rfl hg]
            exact hInv
        | ok iid =>
            cases hlk : lookupIndex (effRecord s iid).IDs answerID with
            | none =>
                obtain ⟨s', hop, hcfg, hdisk, hact, hnow, hself, hother, hmem, hnd⟩ :=
                  overwritePollResult_notFound answerID name comment results change ha hg hlk
                have h2 : (applyOp s
                    (.overwritePollResult pollID answerID name comment results change)).2 = s' := by
                  simp [applyOp, hop]
                rw [h2]
                exact @stateInv_of_memUpdate _ _ _ (effRecord s iid) hInv hdisk
                  (fun kv h => (hmem kv h).imp id Or.inl)
                  (effRecord_WF hInv iid) hnd
            | some i =>
                obtain ⟨s', hop, hcfg, hdisk, hact, hnow, hself, hother, hmem, hnd⟩ :=
                  overwritePollResult_found name comment results change ha hg hlk
                have h2 : (applyOp s
                    (.overwritePollResult pollID answerID name comment results change)).2 = s' := by
                  simp [applyOp, hop]
                rw [h2]
                exact stateInv_of_memUpdate hInv hdisk hmem
                  (recordWF_overwriteRow (effRecord_WF hInv iid) _ _ _ _ _ _) hnd
      · rw [@applyOp_notActive _ (Op.overwritePollResult pollID answerID name comment results change) _ (by simpa using ha) rfl]
        exact hInv
  | getPollResult pollID =>
      by_cases ha : s.active = true
      · cases hg : getInternalID pollID with
        | error e =>
            have he := getInternalID_error hg
            subst he
            rw [@applyOp_invalid _ (Op.getPollResult pollID) _ ha rfl hg]
            exact hInv
        | ok iid =>
            obtain ⟨s', hop, hcfg, hdisk, hact, hnow, hself, hother, hmem, hnd⟩ :=
              getPollResult_spec ha hg
            have h2 : (applyOp s (.getPollResult pollID)).2 = s' := by
              simp [applyOp, hop]
            rw [h2]
            exact stateInv_of_memUpdate hInv hdisk hmem
              (recordWF_touch (effRecord_WF hInv iid) _) hnd
      · rw [@applyOp_notActive _ (Op.getPollResult pollID) _ (by simpa using ha) rfl]
        exact hInv
  | getSinglePollResult pollID answerID =>
      by_cases ha : s.active = true
      · cases hg : getInternalID pollID with
        | error e =>
            have he := getInternalID_error hg
            subst he
            rw [@applyOp_invalid _ (Op.getSinglePollResult pollID answerID) _ ha rfl hg]
            exact hInv
        | ok iid =>
            cases hlk : lookupIndex (effRecord s iid).IDs answerID with
            | none =>
                obtain ⟨s', hop, hcfg, hdisk, hact, hnow, hself, hother, hmem, hnd⟩ :=
                  getSinglePollResult_notFound answerID ha hg hlk
                have h2 : (applyOp s (.getSinglePollResult pollID answerID)).2 = s' := by
                  simp [applyOp, hop]
                rw [h2]
                exact @stateInv_of_memUpdate _ _ _ (effRecord s iid) hInv hdisk
                  (fun kv h => (hmem kv h).imp id Or.inl)
                  (effRecord_WF hInv iid) hnd
            | some i =>
                obtain ⟨s', hop, hcfg, hdisk, hact, hnow, hself, hother, hmem, hnd⟩ :=
                  getSinglePollResult_found ha hg hlk
                have h2 : (applyOp s (.getSinglePollResult pollID answerID)).2 = s' := by
                  simp [applyOp, hop]
                rw [h2]
                exact stateInv_of_memUpdate hInv hdisk hmem
                  (recordWF_touch (effRecord_WF hInv iid) _) hnd
      · rw [@applyOp_notActive _ (Op.getSinglePollResult pollID answerID) _ (by simpa using ha) rfl]
        exact hInv
  | deleteAnswer pollID answerID =>
      by_cases ha : s.active = true
      · cases hg : getInternalID pollID with
        | error e =>
            have he := getInternalID_error hg
            subst he
            rw [@applyOp_invalid _ (Op.deleteAnswer pollID answerID) _ ha rfl hg]
            exact hInv
        | ok iid =>
            cases hlk : lookupIndex (effRecord s iid).IDs answerID with
            | none =>
                obtain ⟨s', hop, hcfg, hdisk, hact, hnow, hself, hother, hmem, hnd⟩ :=
                  deleteAnswer_notFound answerID ha hg hlk
                have h2 : (applyOp s (.deleteAnswer pollID answerID)).2 = s' := by
                  simp [applyOp, hop]
                rw [h2]
                exact @stateInv_of_memUpdate _ _ _ (effRecord s iid) hInv hdisk
                  (fun kv h => (hmem kv h).imp id Or.inl)
                  (effRecord_WF hInv iid) hnd
            | some i =>
                obtain ⟨s', hop, hcfg, hdisk, hact, hnow, hself, hother, hmem, hnd⟩ :=
                  deleteAnswer_found ha hg hlk
                have h2 : (applyOp s (.deleteAnswer pollID answerID)).2 = s' := by
                  simp [applyOp, hop]
                rw [h2]
                exact stateInv_of_memUpdate hInv hdisk hmem
                  (recordWF_eraseRow (effRecord_WF hInv iid) _ _) hnd
      · rw [@applyOp_notActive _ (Op.deleteAnswer pollID answerID) _ (by simpa using ha) rfl]
        exact hInv
  | savePollConfig pollID c =>
      by_cases ha : s.active = true
      · cases hg : getInternalID pollID with
        | error e =>
            have he := getInternalID_error hg
            subst he
            rw [@applyOp_invalid _ (Op.savePollConfig pollID c) _ ha rfl hg]
            exact hInv
        | ok iid =>
            obtain ⟨s', hop, hcfg, hdisk, hact, hnow, hself, hother, hmem, hnd⟩ :=
              savePollConfig_spec c ha hg
            have h2 : (applyOp s (.savePollConfig pollID c)).2 = s' := by
              simp [applyOp, hop]
            rw [h2]
            exact stateInv_of_memUpdate hInv hdisk hmem
              (recordWF_setConfig (effRecord_WF hInv iid) _ _) hnd
      · rw [@applyOp_notActive _ (Op.savePollConfig pollID c) _ (by simpa using ha) rfl]
        exact hInv
  | getPollConfig pollID =>
      by_cases ha : s.active = true
      · cases hg : getInternalID pollID with
        | error e =>
            have he := getInternalID_error hg
            subst he
            rw [@applyOp_invalid _ (Op.getPollConfig pollID) _ ha rfl hg]
            exact hInv
        | ok iid =>
            obtain ⟨s', hop, hcfg, hdisk, hact, hnow, hself, hother, hmem, hnd⟩ :=
              getPollConfig_spec ha hg
            have h2 : (applyOp s (.getPollConfig pollID)).2 = s' := by
              simp [applyOp, hop]
            rw [h2]
            exact stateInv_of_memUpdate hInv hdisk hmem
              (recordWF_touch (effRecord_WF hInv iid) _) hnd
      · rw [@applyOp_notActive _ (Op.getPollConfig pollID) _ (by simpa using ha) rfl]
        exact hInv
  | savePollCreator pollID name =>
      by_cases ha : s.active = true
      · cases hg : getInternalID pollID with
        | error e =>
            have he := getInternalID_error hg
            subst he
            rw [@applyOp_invalid _ (Op.savePollCreator pollID name) _ ha rfl hg]
            exact hInv
        | ok iid =>
            obtain ⟨s', hop, hcfg, hdisk, hact, hnow, hself, hother, hmem, hnd⟩ :=
              savePollCreator_spec name ha hg
            have h2 : (applyOp s (.savePollCreator pollID name)).2 = s' := by
              simp [applyOp, hop]
            rw [h2]
            exact stateInv_of_memUpdate hInv hdisk hmem
              (recordWF_setCreator (effRecord_WF hInv iid) _ _) hnd
      · rw [@applyOp_notActive _ (Op.savePollCreator pollID name) _ (by simpa using ha) rfl]
        exact hInv
  | getPollCreator pollID =>
      by_cases ha : s.active = true
      · cases hg : getInternalID pollID with
        | error e =>
            have he := getInternalID_error hg
            subst he
            rw [@applyOp_invalid _ (Op.getPollCreator pollID) _ ha rfl hg]
            exact hInv
        | ok iid =>
            obtain ⟨s', hop, hcfg, hdisk, hact, hnow, hself, hother, hmem, hnd⟩ :=
              getPollCreator_spec ha hg
            have h2 : (applyOp s (.getPollCreator pollID)).2 = s' := by
              simp [applyOp, hop]
            rw [h2]
            exact stateInv_of_memUpdate hInv hdisk hmem
              (recordWF_touch (effRecord_WF hInv iid) _) hnd
      · rw [@applyOp_notActive _ (Op.getPollCreator pollID) _ (by simpa using ha) rfl]
        exact hInv
  | markPollDeleted pollID =>
      by_cases ha : s.active = true
      · cases hg : getInternalID pollID with
        | error e =>
            have he := getInternalID_error hg
            subst he
            rw [@applyOp_invalid _ (Op.markPollDeleted pollID) _ ha rfl hg]
            exact hInv
        | ok iid =>
            obtain ⟨s', hop, hcfg, hdisk, hact, hnow, hself, hother, hmem, hnd⟩ :=
              markPollDeleted_spec ha hg
            have h2 : (applyOp s (.markPollDeleted pollID)).2 = s' := by
              simp [applyOp, hop]
            rw [h2]
            exact stateInv_of_memUpdate hInv hdisk hmem
              (recordWF_setDeleted (effRecord_WF hInv iid) _) hnd
      · rw [@applyOp_notActive _ (Op.markPollDeleted pollID) _ (by simpa using ha) rfl]
        exact hInv
  | getChange pollID answerID =>
      by_cases ha : s.active = true
      · cases hg : getInternalID pollID with
        | error e =>
            have he := getInternalID_error hg
            subst he
            rw [@applyOp_invalid _ (Op.getChange pollID answerID) _ ha rfl hg]
            exact hInv
        | ok iid =>
            cases hlk : lookupIndex (effRecord s iid).IDs answerID with
            | none =>
                obtain ⟨s', hop, hcfg, hdisk, hact, hnow, hself, hother, hmem, hnd⟩ :=
                  getChange_notFound answerID ha hg hlk
                have h2 : (applyOp s (.getChange pollID answerID)).2 = s' := by
                  simp [applyOp, hop]
                rw [h2]
                exact @stateInv_of_memUpdate _ _ _ (effRecord s iid) hInv hdisk
                  (fun kv h => (hmem kv h).imp id Or.inl)
                  (effRecord_WF hInv iid) hnd
            | some i =>
                obtain ⟨s', hop, hcfg, hdisk, hact, hnow, hself, hother, hmem, hnd⟩ :=
                  getChange_found ha hg hlk
                have h2 : (applyOp s (.getChange pollID answerID)).2 = s' := by
                  simp [applyOp, hop]
                rw [h2]
                exact @stateInv_of_memUpdate _ _ _ (effRecord s iid) hInv hdisk
                  (fun kv h => (hmem kv h).imp id Or.inl)
                  (effRecord_WF hInv iid) hnd
      · rw [@applyOp_notActive _ (Op.getChange pollID answerID) _ (by simpa using ha) rfl]
        exact hInv
  | runGC =>
      have h2 : (applyOp s .runGC).2 = (runGC s).2 := by
        simp [applyOp]
      rw [h2]
      exact stateInv_runGC hInv
  | clearTick => exact stateInv_clearTick hInv
  | syncTick => exact stateInv_syncTick hInv
  | flushAndClose => exact stateInv_flushAndClose hInv

/-- Every reachable state satisfies the structural invariant. -/
theorem stateInv_step {s : StoreState} (hInv : stateInv s) (op : Op) :
    stateInv (step s op).2 := by
  have h := stateInv_applyOp hInv op
  unfold step
  exact stateInv_set_now h _

theorem stateInv_run {ops : List Op} :
    ∀ {s : StoreState}, stateInv s → stateInv (run s ops) := by
  induction ops with
  | nil => intro s h; exact h
  | cons op rest ih =>
      intro s h
      have hstep := stateInv_step h op
      have hr : run s (op :: rest) = run (step s op).2 rest := by
        simp [run, runWithOuts]
      rw [hr]
      exact ih hstep

theorem stateInv_initState (cfg : FMConfig) : stateInv (initState cfg) := by
  refine ⟨?_, ?_, ?_, ?_⟩ <;> simp [initState]

/-! ### Further helper lemmas -/

theorem configBytes_decodeConfig (c : List Nat) :
    configBytes (decodeConfig c) = c := by
  by_cases hc : c = []
  · simp [decodeConfig, configBytes, hc]
  · simp [decodeConfig, configBytes, hc]

theorem lookupIndex_isSome_of_mem {l : List String} {a : String} (h : a ∈ l) :
    ∃ i, lookupIndex l a = some i := by
  cases hlk : lookupIndex l a with
  | none => exact absurd h ((lookupIndex_eq_none_iff l a).mp hlk)
  | some i => exact ⟨i, rfl⟩

theorem getInternalID_contains {ID : String} (h : sentinel ∈ ID.data) :
    getInternalID ID = .error .invalidID := by
  unfold getInternalID
  rw [if_pos (by simpa using h)]

theorem getInternalID_no_separator {ID iid : String}
    (h : getInternalID ID = .ok iid) : pathSeparator ∉ iid.data := by
  unfold getInternalID at h
  by_cases hc : ID.data.contains sentinel
  · rw [if_pos hc] at h
    cases h
  · rw [if_neg hc] at h
    cases h
    intro hin
    simp only [String.data] at hin
    rcases List.mem_map.mp hin with ⟨c, _, hc2⟩
    by_cases hcc : c = pathSeparator
    · rw [if_pos hcc] at hc2
      exact absurd hc2 (by decide)
    · rw [if_neg hcc] at hc2
      exact hcc hc2

/-! ### Claim theorems -/

/-- Claim C1, counterexample to the statement as frozen: a record with a
non-nil config whose change-secret array is shorter than its names array
is padded by `load`, so the decoded change secrets differ from the
encoded ones.  (In Go: `FileMemoryPollResult{Names: []string{"a"},
Config: []byte{1}}` — `save` writes `Change = nil`, `load` pads it to
`[""]`.) -/
theorem claim_C1_counterexample :
    save { Data := [], Names := ["a"], Comments := [], Config := some [1],
           LastAccess := 0, Deleted := false, Creator := "", Change := [], IDs := [],
           AnswerCounter := 0 } =
      some { data := [], names := ["a"], comments := [], config := [1],
             deleted := false, creator := "", change := [], ids := [],
             answerCounter := 0 } ∧
    (load { data := [], names := ["a"], comments := [], config := [1],
            deleted := false, creator := "", change := [], ids := [],
            answerCounter := 0 } 0).Change = [""] ∧
    ([""] : List String) ≠ [] := by
  decide

/-- Claim C1 (amended): for every record with a non-nil config whose
change-secret and answer-id arrays are at least as long as the names
array (in particular every well-formed record), encoding with `save` and
decoding with `load` restores the result rows, names, comments, config
bytes, deleted flag, creator, change secrets, answer ids, and the answer
counter. -/
theorem claim_C1 {p : FileMemoryPollResult} {c : List Nat}
    (hc : p.Config = some c)
    (hch : p.Names.length ≤ p.Change.length)
    (hid : p.Names.length ≤ p.IDs.length) (now : Nat) :
    ∃ f, save p = some f ∧
      (load f now).Data = p.Data ∧ (load f now).Names = p.Names ∧
      (load f now).Comments = p.Comments ∧
      configBytes (load f now).Config = configBytes p.Config ∧
      (load f now).Deleted = p.Deleted ∧ (load f now).Creator = p.Creator ∧
      (load f now).Change = p.Change ∧ (load f now).IDs = p.IDs ∧
      (load f now).AnswerCounter = p.AnswerCounter := by
  refine ⟨{ data := p.Data, names := p.Names, comments := p.Comments, config := c,
            deleted := p.Deleted, creator := p.Creator, change := p.Change,
            ids := p.IDs, answerCounter := p.AnswerCounter }, ?_, ?_⟩
  · simp [save, hc]
  · have hf : save p = some { data := p.Data, names := p.Names
                              comments := p.Comments, config := c
                              deleted := p.Deleted, creator := p.Creator
                              change := p.Change, ids := p.IDs
                              answerCounter := p.AnswerCounter } := by
      simp [save, hc]
    have hl := load_save hc hch hid hf now
    rw [hl]
    refine ⟨rfl, rfl, rfl, ?_, rfl, rfl, rfl, rfl, rfl⟩
    rw [hc]
    show configBytes (decodeConfig c) = configBytes (some c)
    rw [configBytes_decodeConfig]
    rfl

theorem claim_C1_witness :
    ∃ p : FileMemoryPollResult, ∃ c : List Nat, p.Config = some c ∧
      p.Names.length ≤ p.Change.length ∧ p.Names.length ≤ p.IDs.length ∧
      (∃ f, save p = some f ∧
        (load f 7).Data = p.Data ∧ (load f 7).Names = p.Names ∧
        (load f 7).Comments = p.Comments ∧
        configBytes (load f 7).Config = configBytes p.Config ∧
        (load f 7).Deleted = p.Deleted ∧ (load f 7).Creator = p.Creator ∧
        (load f 7).Change = p.Change ∧ (load f 7).IDs = p.IDs ∧
        (load f 7).AnswerCounter = p.AnswerCounter) :=
  ⟨{ Data := [[2, 0]], Names := ["alice"], Comments := ["hi"], Config := some [1, 2],
     LastAccess := 3, Deleted := false, Creator := "bob", Change := ["sec"],
     IDs := ["1-XYZ"], AnswerCounter := 1 }, [1, 2], rfl, by decide, by decide,
   claim_C1 rfl (by decide) (by decide) 7⟩

/-- Claim C2 (confirmed): a successful `SavePollResult` on an active
store with a valid identifier appends exactly one row at the end of the
poll's rows, increments the answer counter by one, refreshes
`LastAccess`, and returns the id formed from the incremented counter, a
dash, and the random suffix. -/
theorem claim_C2 {s : StoreState} {pollID iid : String} (name comment : String)
    (results : List Int) (change suffix : String)
    (ha : s.active = true) (hg : getInternalID pollID = .ok iid) :
    ∃ s', savePollResult s pollID name comment results change suffix =
        (.ok (mkAnswerID ((effRecord s iid).AnswerCounter + 1) suffix), s') ∧
      getEntry s'.memory iid = some { effRecord s iid with
        Data := (effRecord s iid).Data ++ [results]
        Names := (effRecord s iid).Names ++ [name]
        Comments := (effRecord s iid).Comments ++ [comment]
        Change := (effRecord s iid).Change ++ [change]
        AnswerCounter := (effRecord s iid).AnswerCounter + 1
        IDs := (effRecord s iid).IDs ++
          [mkAnswerID ((effRecord s iid).AnswerCounter + 1) suffix]
        LastAccess := s.now } ∧
      (∀ j, j ≠ iid → getEntry s'.memory j = getEntry s.memory j) ∧
      s'.disk = s.disk := by
  obtain ⟨s', hop, hcfg, hdisk, hact, hnow, hself, hother, hmem, hnd⟩ :=
    savePollResult_spec name comment results change suffix ha hg
  exact ⟨s', hop, hself, hother, hdisk⟩

theorem claim_C2_witness :
    s0.active = true ∧ getInternalID "P" = .ok "P" ∧
    (∃ s', savePollResult s0 "P" "alice" "hi" [0, 1] "sec" "XYZ" =
        (.ok (mkAnswerID ((effRecord s0 "P").AnswerCounter + 1) "XYZ"), s') ∧
      getEntry s'.memory "P" = some { effRecord s0 "P" with
        Data := (effRecord s0 "P").Data ++ [[0, 1]]
        Names := (effRecord s0 "P").Names ++ ["alice"]
        Comments := (effRecord s0 "P").Comments ++ ["hi"]
        Change := (effRecord s0 "P").Change ++ ["sec"]
        AnswerCounter := (effRecord s0 "P").AnswerCounter + 1
        IDs := (effRecord s0 "P").IDs ++
          [mkAnswerID ((effRecord s0 "P").AnswerCounter + 1) "XYZ"]
        LastAccess := s0.now } ∧
      (∀ j, j ≠ "P" → getEntry s'.memory j = getEntry s0.memory j) ∧
      s'.disk = s0.disk) :=
  ⟨rfl, by decide, claim_C2 "alice" "hi" [0, 1] "sec" "XYZ" rfl (by decide)⟩

/-- Claim C7, counterexample to the truncated-file part as frozen:
decoding a file whose gob stream was truncated after the first field
(only `Data` present) yields a record whose `Data` has one row but whose
`Names` (and the other three arrays) are empty — the five sequences do
not have equal length. -/
theorem claim_C7_counterexample :
    (loadFields { data := [[1]], names := [], comments := [], config := []
                  deleted := false, creator := "", change := [], ids := []
                  answerCounter := 0 } 1 0).Data.length = 1 ∧
    (loadFields { data := [[1]], names := [], comments := [], config := []
                  deleted := false, creator := "", change := [], ids := []
                  answerCounter := 0 } 1 0).Names.length = 0 := by
  decide

/-- Claim C7 (amended): in every state reachable from a freshly
initialised store, every hot record and every file on disk has its five
row sequences of equal length.  (Decoding an externally truncated file
can break this — see the counterexample — but no such file is ever
produced by the store itself.) -/
theorem claim_C7 (cfg : FMConfig) (ops : List Op) :
    (∀ kv ∈ (run (initState cfg) ops).memory, recordWF kv.2) ∧
    (∀ kv ∈ (run (initState cfg) ops).disk, fileWF kv.2) := by
  have h := @stateInv_run ops (initState cfg) (stateInv_initState cfg)
  exact ⟨h.1, h.2.1⟩

/-- Claim C9, counterexample to the statement as frozen: the internal
identifier derived from the key `a/b` is `a﷐b`, which does contain the
escape sentinel (that is the whole point of the escaping). -/
theorem claim_C9_counterexample :
    getInternalID "a/b" = .ok "a﷐b" ∧ sentinel ∈ ("a﷐b").data := by
  decide

/-- Claim C9 (amended): the internal identifier derived from an accepted
external key never contains the path-separator character (it may contain
the sentinel, which replaces it); every key containing the escape
sentinel is rejected — `getInternalID` refuses it, accepted keys never
contain it, and every public operation addressed at such a key fails
with the invalid-identifier error without touching the state. -/
theorem claim_C9 (s : StoreState) (op : Op) (pollID ID iid : String)
    (ha : s.active = true) (hop : opPollID op = some pollID)
    (hsent : sentinel ∈ pollID.data)
    (hok : getInternalID ID = .ok iid) :
    pathSeparator ∉ iid.data ∧ sentinel ∉ ID.data ∧
    applyOp s op = (.error .invalidID, s) := by
  refine ⟨getInternalID_no_separator hok, ?_, ?_⟩
  · intro hin
    rw [getInternalID_contains hin] at hok
    cases hok
  · exact applyOp_invalid ha hop (getInternalID_contains hsent)

theorem claim_C9_witness :
    s0.active = true ∧
    opPollID (.getPollResult "x﷐y") = some "x﷐y" ∧
    sentinel ∈ ("x﷐y").data ∧
    getInternalID "a/b" = .ok "a﷐b" ∧
    (pathSeparator ∉ ("a﷐b").data ∧ sentinel ∉ ("a/b").data ∧
      applyOp s0 (.getPollResult "x﷐y") = (.error .invalidID, s0)) :=
  ⟨rfl, rfl, by decide, by decide,
   claim_C9 s0 _ "x﷐y" "a/b" "a﷐b" rfl rfl (by decide) (by decide)⟩

/-- Claim C10 (confirmed): on a record whose five row sequences have
equal length, the index found by the id scan of the row-lookup
operations is in bounds for all five sequences, so the unchecked
accesses of `OverwritePollResult`, `GetSinglePollResult`,
`DeleteAnswer`, and `GetChange` are safe. -/
theorem claim_C10 (p : FileMemoryPollResult) (answerID : String) (i : Nat)
    (hWF : recordWF p) (hlk : lookupIndex p.IDs answerID = some i) :
    i < p.Data.length ∧ i < p.Names.length ∧ i < p.Comments.length ∧
      i < p.Change.length ∧ i < p.IDs.length := by
  have hi := lookupIndex_lt_length hlk
  obtain ⟨h1, h2, h3, h4⟩ := hWF
  omega

theorem claim_C10_witness :
    recordWF { Data := [[5]], Names := ["n"], Comments := ["c"], Config := none
               LastAccess := 0, Deleted := false, Creator := "", Change := ["s"]
               IDs := ["1-A"], AnswerCounter := 1 } ∧
    lookupIndex ["1-A"] "1-A" = some 0 ∧
    (0 < ([[5]] : List (List Int)).length ∧ 0 < (["n"] : List String).length ∧
      0 < (["c"] : List String).length ∧ 0 < (["s"] : List String).length ∧
      0 < (["1-A"] : List String).length) :=
  ⟨by decide, by decide,
   claim_C10 { Data := [[5]], Names := ["n"], Comments := ["c"], Config := none
               LastAccess := 0, Deleted := false, Creator := "", Change := ["s"]
               IDs := ["1-A"], AnswerCounter := 1 } "1-A" 0 (by decide) (by decide)⟩

/-- Claim C5 (confirmed): on an active store with a valid identifier,
the four row-lookup operations fail with the unknown-answer error
(which is `ErrFileMemoryInvalidID`) exactly when no row of the poll has
the given answer id; on such a failure the poll's record is unchanged;
and a successful `OverwritePollResult` replaces the row in place,
leaving the answer ids — and hence the row's id and its position —
untouched. -/
theorem claim_C5 (s : StoreState) (pollID iid answerID name comment : String)
    (results : List Int) (change : String)
    (ha : s.active = true) (hg : getInternalID pollID = .ok iid) :
    ((overwritePollResult s pollID answerID name comment results change).1 =
        .error .invalidID ↔ answerID ∉ (effRecord s iid).IDs) ∧
    ((getSinglePollResult s pollID answerID).1 = .error .invalidID ↔
        answerID ∉ (effRecord s iid).IDs) ∧
    ((deleteAnswer s pollID answerID).1 = .error .invalidID ↔
        answerID ∉ (effRecord s iid).IDs) ∧
    ((getChange s pollID answerID).1 = .error .invalidID ↔
        answerID ∉ (effRecord s iid).IDs) ∧
    (answerID ∉ (effRecord s iid).IDs →
      getEntry (overwritePollResult s pollID answerID name comment results change).2.memory
          iid = some (effRecord s iid) ∧
      getEntry (getSinglePollResult s pollID answerID).2.memory iid =
          some (effRecord s iid) ∧
      getEntry (deleteAnswer s pollID answerID).2.memory iid =
          some (effRecord s iid) ∧
      getEntry (getChange s pollID answerID).2.memory iid =
          some (effRecord s iid)) ∧
    (∀ i, lookupIndex (effRecord s iid).IDs answerID = some i →
      ∃ s', overwritePollResult s pollID answerID name comment results change =
          (.ok (), s') ∧
        getEntry s'.memory iid = some { effRecord s iid with
          Data := (effRecord s iid).Data.set i results
          Names := (effRecord s iid).Names.set i name
          Comments := (effRecord s iid).Comments.set i comment
          Change := (effRecord s iid).Change.set i change
          LastAccess := s.now } ∧
        (effRecord s iid).IDs.get? i = some answerID) := by
  constructor
  · constructor
    · intro herr
      cases hlk : lookupIndex (effRecord s iid).IDs answerID with
      | none => exact (lookupIndex_eq_none_iff _ _).mp hlk
      | some i =>
          obtain ⟨s', hop, -⟩ :=
            overwritePollResult_found name comment results change ha hg hlk
          rw [hop] at herr
          cases herr
    · intro hnm
      obtain ⟨s', hop, -⟩ := overwritePollResult_notFound answerID name comment
        results change ha hg ((lookupIndex_eq_none_iff _ _).mpr hnm)
      rw [hop]
  refine ⟨⟨?_, ?_⟩, ⟨?_, ?_⟩, ⟨?_, ?_⟩, ?_, ?_⟩
  · intro herr
    cases hlk : lookupIndex (effRecord s iid).IDs answerID with
    | none => exact (lookupIndex_eq_none_iff _ _).mp hlk
    | some i =>
        obtain ⟨s', hop, -⟩ := getSinglePollResult_found ha hg hlk
        rw [hop] at herr
        cases herr
  · intro hnm
    obtain ⟨s', hop, -⟩ := getSinglePollResult_notFound answerID ha hg
      ((lookupIndex_eq_none_iff _ _).mpr hnm)
    rw [hop]
  · intro herr
    cases hlk : lookupIndex (effRecord s iid).IDs answerID with
    | none => exact (lookupIndex_eq_none_iff _ _).mp hlk
    | some i =>
        obtain ⟨s', hop, -⟩ := deleteAnswer_found ha hg hlk
        rw [hop] at herr
        cases herr
  · intro hnm
    obtain ⟨s', hop, -⟩ := deleteAnswer_notFound answerID ha hg
      ((lookupIndex_eq_none_iff _ _).mpr hnm)
    rw [hop]
  · intro herr
    cases hlk : lookupIndex (effRecord s iid).IDs answerID with
    | none => exact (lookupIndex_eq_none_iff _ _).mp hlk
    | some i =>
        obtain ⟨s', hop, -⟩ := getChange_found ha hg hlk
        rw [hop] at herr
        cases herr
  · intro hnm
    obtain ⟨s', hop, -⟩ := getChange_notFound answerID ha hg
      ((lookupIndex_eq_none_iff _ _).mpr hnm)
    rw [hop]
  · intro hnm
    have hlk := (lookupIndex_eq_none_iff _ _).mpr hnm
    obtain ⟨s1', hop1, -, -, -, -, hself1, -⟩ :=
      overwritePollResult_notFound answerID name comment results change ha hg hlk
    obtain ⟨s2', hop2, -, -, -, -, hself2, -⟩ :=
      getSinglePollResult_notFound answerID ha hg hlk
    obtain ⟨s3', hop3, -, -, -, -, hself3, -⟩ :=
      deleteAnswer_notFound answerID ha hg hlk
    obtain ⟨s4', hop4, -, -, -, -, hself4, -⟩ :=
      getChange_notFound answerID ha hg hlk
    rw [hop1, hop2, hop3, hop4]
    exact ⟨hself1, hself2, hself3, hself4⟩
  · intro i hlk
    obtain ⟨s', hop, -, -, -, -, hself, -⟩ :=
      overwritePollResult_found name comment results change ha hg hlk
    exact ⟨s', hop, hself, lookupIndex_get hlk⟩

theorem claim_C5_witness :
    s0.active = true ∧ getInternalID "P" = .ok "P" ∧
    (((overwritePollResult s0 "P" "1-A" "n" "c" [0] "ch").1 =
        .error .invalidID ↔ "1-A" ∉ (effRecord s0 "P").IDs) ∧
    ((getSinglePollResult s0 "P" "1-A").1 = .error .invalidID ↔
        "1-A" ∉ (effRecord s0 "P").IDs) ∧
    ((deleteAnswer s0 "P" "1-A").1 = .error .invalidID ↔
        "1-A" ∉ (effRecord s0 "P").IDs) ∧
    ((getChange s0 "P" "1-A").1 = .error .invalidID ↔
        "1-A" ∉ (effRecord s0 "P").IDs) ∧
    ("1-A" ∉ (effRecord s0 "P").IDs →
      getEntry (overwritePollResult s0 "P" "1-A" "n" "c" [0] "ch").2.memory
          "P" = some (effRecord s0 "P") ∧
      getEntry (getSinglePollResult s0 "P" "1-A").2.memory "P" =
          some (effRecord s0 "P") ∧
      getEntry (deleteAnswer s0 "P" "1-A").2.memory "P" =
          some (effRecord s0 "P") ∧
      getEntry (getChange s0 "P" "1-A").2.memory "P" =
          some (effRecord s0 "P")) ∧
    (∀ i, lookupIndex (effRecord s0 "P").IDs "1-A" = some i →
      ∃ s', overwritePollResult s0 "P" "1-A" "n" "c" [0] "ch" = (.ok (), s') ∧
        getEntry s'.memory "P" = some { effRecord s0 "P" with
          Data := (effRecord s0 "P").Data.set i [0]
          Names := (effRecord s0 "P").Names.set i "n"
          Comments := (effRecord s0 "P").Comments.set i "c"
          Change := (effRecord s0 "P").Change.set i "ch"
          LastAccess := s0.now } ∧
        (effRecord s0 "P").IDs.get? i = some "1-A")) :=
  ⟨rfl, by decide, claim_C5 s0 "P" "P" "1-A" "n" "c" [0] "ch" rfl (by decide)⟩

theorem getEntry_filter {α : Type} {m : List (String × α)} (q : String × α → Bool)
    (j : String) (hnd : (m.map Prod.fst).Nodup) :
    getEntry (m.filter q) j =
      match getEntry m j with
      | some v => if q (j, v) then some v else none
      | none => none := by
  induction m with
  | nil => simp [getEntry]
  | cons kv rest ih =>
      obtain ⟨k', v'⟩ := kv
      simp only [List.map_cons, List.nodup_cons] at hnd
      by_cases hk : k' = j
      · subst hk
        have hrest : getEntry rest k' = none :=
          getEntry_eq_none_of_not_mem_keys hnd.1
        by_cases hq : q (k', v')
        · simp [List.filter_cons, hq, getEntry]
        · have := ih hnd.2
          rw [hrest] at this
          simp [List.filter_cons, hq, getEntry, this]
      · have := ih hnd.2
        by_cases hq : q (k', v')
        · simpa [List.filter_cons, hq, getEntry, hk] using this
        · simpa [List.filter_cons, hq, getEntry, hk] using this

/-- Claim C8, counterexample to the statement as frozen: a record whose
config is empty but present (Go `[]byte{}`, not `nil`) IS written to
disk by `save` — only a `nil` config makes saving a no-op. -/
theorem claim_C8_counterexample :
    save { Data := [], Names := [], Comments := [], Config := some []
           LastAccess := 0, Deleted := false, Creator := "", Change := [], IDs := []
           AnswerCounter := 0 } ≠ none ∧
    ({ Data := [], Names := [], Comments := [], Config := some []
       LastAccess := 0, Deleted := false, Creator := "", Change := [], IDs := []
       AnswerCounter := 0 } : FileMemoryPollResult).Config = some [] := by
  decide

/-- Claim C8 (amended): a record with an absent (`nil`) config — and
only such a record — is never written to disk by `save`; a
present-but-empty config is written but decodes as never-created.
`RunGC` physically removes exactly those files in the storage
directory (as it stands after phase 1 has persisted and dropped the
deleted hot records) whose decoded record is marked deleted or has an
absent config; all other files are left untouched. -/
theorem claim_C8 (s : StoreState) (r : FileMemoryPollResult) (id : String)
    (f : FMFile) (ha : s.active = true)
    (hnd : ((gcPhase1 s).disk.map Prod.fst).Nodup) :
    (save r = none ↔ r.Config = none) ∧
    (runGC s).1 = .ok () ∧
    (getEntry (runGC s).2.disk id = some f ↔
      getEntry (gcPhase1 s).disk id = some f ∧ gcRemoves f s.now = false) := by
  refine ⟨?_, ?_, ?_⟩
  · constructor
    · intro h
      cases hc : r.Config with
      | none => rfl
      | some c => simp [save, hc] at h
    · intro h
      simp [save, h]
  · simp [runGC, ha]
  · have hq := getEntry_filter (fun kv => !gcRemoves kv.2 s.now) id hnd
    have hrw : (runGC s).2.disk =
        (gcPhase1 s).disk.filter (fun kv => !gcRemoves kv.2 s.now) := by
      simp [runGC, ha]
    rw [hrw, hq]
    cases hget : getEntry (gcPhase1 s).disk id with
    | none => simp
    | some v =>
        by_cases hrem : gcRemoves v s.now
        · simp only [hrem, Bool.not_true, Bool.false_eq_true, if_false]
          constructor
          · intro h; cases h
          · rintro ⟨hv, hr⟩
            cases hv
            rw [hrem] at hr
            cases hr
        · simp only [hrem, Bool.not_false, if_true]
          constructor
          · intro h
            cases h
            exact ⟨rfl, by simpa using hrem⟩
          · rintro ⟨hv, -⟩
            exact hv

theorem claim_C8_witness :
    s0.active = true ∧ ((gcPhase1 s0).disk.map Prod.fst).Nodup ∧
    ((save (emptyRecord 0) = none ↔ (emptyRecord 0).Config = none) ∧
      (runGC s0).1 = .ok () ∧
      (getEntry (runGC s0).2.disk "P" =
          some (⟨[], [], [], [1], false, "", [], [], 0⟩ : FMFile) ↔
        getEntry (gcPhase1 s0).disk "P" =
          some (⟨[], [], [], [1], false, "", [], [], 0⟩ : FMFile) ∧
        gcRemoves (⟨[], [], [], [1], false, "", [], [], 0⟩ : FMFile) s0.now = false)) :=
  ⟨rfl, by decide, claim_C8 s0 (emptyRecord 0) "P" _ rfl (by decide)⟩

/-! ### Eviction target arithmetic -/

theorem clearTarget_le (M : Nat) (r : ℚ) (hr0 : 0 ≤ r) (hr1 : r ≤ 1) :
    clearTarget M r ≤ M := by
  have hdq : (0 : ℚ) < (r.den : ℚ) := by
    exact_mod_cast r.den_pos
  have hnd : r.num ≤ (r.den : ℤ) := by
    have h := (div_le_one hdq).mp (by rw [Rat.num_div_den r]; exact hr1)
    exact_mod_cast h
  have hnum : r.num.toNat ≤ r.den := by omega
  have h2 : M * r.num.toNat ≤ M * r.den := Nat.mul_le_mul_left _ hnum
  have h3 : M * r.num.toNat + (r.den - 1) < (M + 1) * r.den := by
    have hd := r.den_pos
    have he : (M + 1) * r.den = M * r.den + r.den := by ring
    omega
  unfold clearTarget
  exact Nat.lt_succ_iff.mp ((Nat.div_lt_iff_lt_mul r.den_pos).mpr h3)

theorem clearTarget_eq_ceil (M : Nat) (r : ℚ) (hr : 0 ≤ r) :
    (clearTarget M r : ℤ) = ⌈(M : ℚ) * r⌉ := by
  symm
  rw [Int.ceil_eq_iff]
  have hdq : (0 : ℚ) < (r.den : ℚ) := by exact_mod_cast r.den_pos
  have hnum : r.num = (r.num.toNat : ℤ) :=
    (Int.toNat_of_nonneg (Rat.num_nonneg.mpr hr)).symm
  have hrq : (M : ℚ) * r = ((M * r.num.toNat : ℕ) : ℚ) / ((r.den : ℕ) : ℚ) := by
    conv_lhs => rw [← Rat.num_div_den r, hnum]
    push_cast
    ring
  have hdm := Nat.div_add_mod (M * r.num.toNat + (r.den - 1)) r.den
  have hmod := Nat.mod_lt (M * r.num.toNat + (r.den - 1)) r.den_pos
  have hdpos := r.den_pos
  have h9 : r.den * clearTarget M r < M * r.num.toNat + r.den := by
    unfold clearTarget
    omega
  have h6 : M * r.num.toNat ≤ r.den * clearTarget M r := by
    unfold clearTarget
    omega
  constructor
  · rw [hrq, lt_div_iff₀ hdq]
    have h9q : (r.den : ℚ) * clearTarget M r <
        ((M * r.num.toNat : ℕ) : ℚ) + r.den := by
      exact_mod_cast h9
    have he : (((clearTarget M r : ℤ) : ℚ) - 1) * r.den =
        (r.den : ℚ) * clearTarget M r - r.den := by
      push_cast
      ring
    rw [he]
    linarith
  · rw [hrq, div_le_iff₀ hdq]
    have h6q : ((M * r.num.toNat : ℕ) : ℚ) ≤ (r.den : ℚ) * clearTarget M r := by
      exact_mod_cast h6
    calc ((M * r.num.toNat : ℕ) : ℚ) ≤ (r.den : ℚ) * clearTarget M r := h6q
      _ = ((clearTarget M r : ℤ) : ℚ) * r.den := by push_cast; ring

/-! ### Eviction loop analysis -/

theorem evictOne_memory (s : StoreState) (id : String) :
    (evictOne s id).memory = delEntry s.memory id := by
  simp only [evictOne]
  rw [(saveToDisk_memory s id).1]

theorem evictOne_disk (s : StoreState) (id : String) :
    (evictOne s id).disk = (saveToDisk s id).disk := rfl

theorem evictLoop_spec (target : Nat) :
    ∀ (l : List (String × Nat)) (s : StoreState),
      (s.memory.map Prod.fst).Nodup →
      (l.map Prod.fst).Nodup →
      (∀ e ∈ l, ∃ p, getEntry s.memory e.1 = some p) →
      s.memory.length ≤ l.length →
      target ≤ s.memory.length →
      (evictLoop target s l).memory.length = target ∧
      (∀ j, getEntry (evictLoop target s l).memory j =
        if j ∈ (l.take (s.memory.length - target)).map Prod.fst then none
        else getEntry s.memory j) ∧
      (∀ j p, j ∈ (l.take (s.memory.length - target)).map Prod.fst →
        getEntry s.memory j = some p →
        getEntry (evictLoop target s l).disk j =
          (match save p with
           | some f => some f
           | none => getEntry s.disk j)) ∧
      (∀ j, j ∉ (l.take (s.memory.length - target)).map Prod.fst →
        getEntry (evictLoop target s l).disk j = getEntry s.disk j) ∧
      (evictLoop target s l).cfg = s.cfg ∧
      (evictLoop target s l).active = s.active ∧
      (evictLoop target s l).now = s.now := by
  intro l
  induction l with
  | nil =>
      intro s hndm hndl hpres hlen htar
      have hml : s.memory.length = 0 := by simpa using hlen
      have ht0 : target = 0 := by omega
      subst ht0
      have hL : evictLoop 0 s [] = s := rfl
      rw [hL]
      refine ⟨hml, fun j => by simp, fun j p h => by simp at h,
        fun j _ => rfl, rfl, rfl, rfl⟩
  | cons e rest ih =>
      intro s hndm hndl hpres hlen htar
      by_cases hc : s.memory.length ≤ target
      · have hml : s.memory.length = target := by omega
        have hk : s.memory.length - target = 0 := by omega
        have hL : evictLoop target s (e :: rest) = s := by
          rw [evictLoop, if_pos hc]
        rw [hL, hk]
        refine ⟨hml, fun j => by simp, fun j p h => by simp at h,
          fun j _ => rfl, rfl, rfl, rfl⟩
      · obtain ⟨p, hp⟩ := hpres e (List.mem_cons_self _ _)
        have hndl' : (rest.map Prod.fst).Nodup := by
          simpa using hndl.of_cons
        have hhead : e.1 ∉ rest.map Prod.fst := by
          have := hndl
          simp only [List.map_cons, List.nodup_cons] at this
          exact this.1
        have hLoop : evictLoop target s (e :: rest) =
            evictLoop target (evictOne s e.1) rest := by
          rw [evictLoop, if_neg hc]
        have hmem' : (evictOne s e.1).memory = delEntry s.memory e.1 :=
          evictOne_memory s e.1
        have hndm' : ((evictOne s e.1).memory.map Prod.fst).Nodup := by
          rw [hmem']
          exact keys_delEntry_nodup _ hndm
        have hlen' : (evictOne s e.1).memory.length = s.memory.length - 1 := by
          rw [hmem']
          exact length_delEntry hp hndm
        have hpres' : ∀ e' ∈ rest, ∃ q, getEntry (evictOne s e.1).memory e'.1 = some q := by
          intro e' he'
          obtain ⟨q, hq⟩ := hpres e' (List.mem_cons_of_mem _ he')
          refine ⟨q, ?_⟩
          rw [hmem', getEntry_delEntry]
          have hne : e'.1 ≠ e.1 := by
            intro hh
            exact hhead (hh ▸ List.mem_map.mpr ⟨e', he', rfl⟩)
          rw [if_neg hne]
          exact hq
        have hlen2 : (evictOne s e.1).memory.length ≤ rest.length := by
          simp only [List.length_cons] at hlen
          omega
        have htar' : target ≤ (evictOne s e.1).memory.length := by
          omega
        obtain ⟨ih1, ih2, ih3, ih4, ih5, ih6, ih7⟩ :=
          ih (evictOne s e.1) hndm' hndl' hpres' hlen2 htar'
        have hkk : s.memory.length - target =
            ((evictOne s e.1).memory.length - target) + 1 := by
          omega
        have htake : (e :: rest).take (s.memory.length - target) =
            e :: rest.take ((evictOne s e.1).memory.length - target) := by
          rw [hkk]
          rfl
        have hcfg1 := (evictOne_cfg s e.1).1
        have hact1 := (evictOne_cfg s e.1).2.1
        have hnow1 := (evictOne_cfg s e.1).2.2
        rw [hLoop, htake]
        refine ⟨ih1, ?_, ?_, ?_, by rw [ih5, hcfg1], by rw [ih6, hact1],
          by rw [ih7, hnow1]⟩
        · intro j
          rw [ih2 j]
          simp only [List.map_cons, List.mem_cons]
          by_cases hj : j = e.1
          · subst hj
            have hnotin : e.1 ∉ (rest.take ((evictOne s e.1).memory.length - target)).map
                Prod.fst := by
              intro hin
              exact hhead ((List.map_subset _ (List.take_subset _ _)) hin)
            rw [if_neg hnotin, if_pos (Or.inl rfl)]
            rw [hmem', getEntry_delEntry, if_pos rfl]
          · by_cases hin : j ∈ (rest.take ((evictOne s e.1).memory.length - target)).map
                Prod.fst
            · rw [if_pos hin, if_pos (Or.inr hin)]
            · rw [if_neg hin, if_neg (by
                intro hor
                rcases hor with hor | hor
                · exact hj hor
                · exact hin hor)]
              rw [hmem', getEntry_delEntry, if_neg hj]
        · intro j q hjin hjq
          simp only [List.map_cons, List.mem_cons] at hjin
          by_cases hj : j = e.1
          · subst hj
            rw [hp] at hjq
            have hq : p = q := Option.some_inj.mp hjq
            subst hq
            have hnotin : e.1 ∉ (rest.take ((evictOne s e.1).memory.length - target)).map
                Prod.fst := by
              intro hin
              exact hhead ((List.map_subset _ (List.take_subset _ _)) hin)
            rw [ih4 e.1 hnotin, evictOne_disk, saveToDisk_disk_self hp]
          · rcases hjin with hjin | hjin
            · exact absurd hjin hj
            · have hmemj : getEntry (evictOne s e.1).memory j = some q := by
                rw [hmem', getEntry_delEntry, if_neg hj]
                exact hjq
              rw [ih3 j q hjin hmemj]
              have hdisk1 : getEntry (evictOne s e.1).disk j = getEntry s.disk j := by
                rw [evictOne_disk]
                exact saveToDisk_disk_ne s e.1 j hj
              cases save q with
              | none => simpa using hdisk1
              | some f => rfl
        · intro j hjnot
          simp only [List.map_cons, List.mem_cons] at hjnot
          push_neg at hjnot
          rw [ih4 j hjnot.2, evictOne_disk]
          exact saveToDisk_disk_ne s e.1 j hjnot.1



theorem sortByTime_perm (m : List (String × FileMemoryPollResult)) :
    List.Perm (sortByTime m) (m.map (fun kv => (kv.1, kv.2.LastAccess))) :=
  List.perm_insertionSort _ _

theorem sortByTime_sorted (m : List (String × FileMemoryPollResult)) :
    List.Sorted (fun a b : String × Nat => a.2 ≤ b.2) (sortByTime m) :=
  List.sorted_insertionSort _ _

theorem sortByTime_keys_perm (m : List (String × FileMemoryPollResult)) :
    List.Perm ((sortByTime m).map Prod.fst) (m.map Prod.fst) := by
  have h1 := (sortByTime_perm m).map Prod.fst
  have h2 : (m.map (fun kv => (kv.1, kv.2.LastAccess))).map Prod.fst =
      m.map Prod.fst := by
    simp [List.map_map, Function.comp]
  rw [h2] at h1
  exact h1

/-- Claim C6 (confirmed): when a clear tick runs with the hot count at
most `MaximumMemory`, nothing happens; when the hot count is strictly
greater, the pass evicts (persist-then-drop) records one at a time,
oldest `LastAccess` first, leaving exactly `ceil(MaximumMemory *
ClearAfterRatio)` hot records: every survivor is an original record,
every evicted record is at least as old as every survivor, and every
evicted record with a present config has been written to disk. -/
theorem claim_C6 (s : StoreState) (hInv : stateInv s) (hv : ValidConfig s.cfg) :
    (s.memory.length ≤ s.cfg.MaximumMemory → clearTick s = s) ∧
    (s.cfg.MaximumMemory < s.memory.length →
      (clearTick s).memory.length =
          clearTarget s.cfg.MaximumMemory s.cfg.ClearAfterRatio ∧
      (clearTarget s.cfg.MaximumMemory s.cfg.ClearAfterRatio : ℤ) =
          ⌈(s.cfg.MaximumMemory : ℚ) * s.cfg.ClearAfterRatio⌉ ∧
      (∀ kv ∈ (clearTick s).memory, kv ∈ s.memory) ∧
      (∀ kv ∈ s.memory, getEntry (clearTick s).memory kv.1 = none →
        (∀ kv' ∈ (clearTick s).memory, kv.2.LastAccess ≤ kv'.2.LastAccess) ∧
        (∀ c, kv.2.Config = some c →
          getEntry (clearTick s).disk kv.1 = save kv.2))) := by
  obtain ⟨hm, hd, hn1, hn2⟩ := hInv
  obtain ⟨hM, hCI, hr0, hr1⟩ := hv
  refine ⟨fun hle => by rw [clearTick, if_pos hle], fun hgt => ?_⟩
  have hclear : clearTick s =
      evictLoop (clearTarget s.cfg.MaximumMemory s.cfg.ClearAfterRatio) s
        (sortByTime s.memory) := by
    rw [clearTick, if_neg (by omega)]
  have htle : clearTarget s.cfg.MaximumMemory s.cfg.ClearAfterRatio ≤
      s.cfg.MaximumMemory := clearTarget_le _ _ hr0 hr1
  have hperm := sortByTime_perm s.memory
  have hndl : ((sortByTime s.memory).map Prod.fst).Nodup :=
    (sortByTime_keys_perm s.memory).nodup_iff.mpr hn1
  have hpres : ∀ e ∈ sortByTime s.memory, ∃ p, getEntry s.memory e.1 = some p := by
    intro e he
    rcases List.mem_map.mp (hperm.subset he) with ⟨kv, hkv, hekv⟩
    refine ⟨kv.2, ?_⟩
    rw [← hekv]
    exact mem_getEntry hkv hn1
  have hlenl : s.memory.length ≤ (sortByTime s.memory).length := by
    rw [hperm.length_eq]
    simp
  have htars : clearTarget s.cfg.MaximumMemory s.cfg.ClearAfterRatio ≤
      s.memory.length := by omega
  obtain ⟨e1, e2, e3, e4, e5, e6, e7⟩ :=
    evictLoop_spec (clearTarget s.cfg.MaximumMemory s.cfg.ClearAfterRatio)
      (sortByTime s.memory) s hn1 hndl hpres hlenl htars
  rw [hclear]
  have hInvLoop : stateInv (evictLoop
      (clearTarget s.cfg.MaximumMemory s.cfg.ClearAfterRatio) s
      (sortByTime s.memory)) :=
    stateInv_evictLoop _ ⟨hm, hd, hn1, hn2⟩
  have hkept : ∀ kv ∈ (evictLoop
        (clearTarget s.cfg.MaximumMemory s.cfg.ClearAfterRatio) s
        (sortByTime s.memory)).memory,
      kv ∈ s.memory ∧ kv.1 ∉ ((sortByTime s.memory).take
        (s.memory.length -
          clearTarget s.cfg.MaximumMemory s.cfg.ClearAfterRatio)).map Prod.fst := by
    intro kv hkv
    have hg := mem_getEntry hkv hInvLoop.2.2.1
    rw [e2 kv.1] at hg
    by_cases hin : kv.1 ∈ ((sortByTime s.memory).take
        (s.memory.length -
          clearTarget s.cfg.MaximumMemory s.cfg.ClearAfterRatio)).map Prod.fst
    · rw [if_pos hin] at hg
      cases hg
    · rw [if_neg hin] at hg
      exact ⟨getEntry_mem hg, hin⟩
  refine ⟨e1, clearTarget_eq_ceil _ _ hr0, fun kv hkv => (hkept kv hkv).1, ?_⟩
  intro kv hkv hnone
  have hget : getEntry s.memory kv.1 = some kv.2 := mem_getEntry hkv hn1
  have hin : kv.1 ∈ ((sortByTime s.memory).take
      (s.memory.length -
        clearTarget s.cfg.MaximumMemory s.cfg.ClearAfterRatio)).map Prod.fst := by
    by_contra hnin
    rw [e2 kv.1, if_neg hnin, hget] at hnone
    cases hnone
  constructor
  · -- every evicted record is at least as old as every survivor
    intro kv' hkv'
    rcases List.mem_map.mp hin with ⟨pr, hprt, hpr1⟩
    have hprs : pr ∈ sortByTime s.memory := List.take_subset _ _ hprt
    rcases List.mem_map.mp (hperm.subset hprs) with ⟨kv0, hkv0, hekv0⟩
    have hkv0get : getEntry s.memory kv0.1 = some kv0.2 := mem_getEntry hkv0 hn1
    have hkeq : kv0.1 = kv.1 := by rw [← hpr1, ← hekv0]
    have hveq : kv0.2 = kv.2 := by
      rw [hkeq] at hkv0get
      rw [hget] at hkv0get
      exact (Option.some_inj.mp hkv0get).symm
    have hprval : pr = (kv.1, kv.2.LastAccess) := by
      rw [← hekv0, hkeq, hveq]
    obtain ⟨hkv'mem, hkv'nin⟩ := hkept kv' hkv'
    have hpair' : (kv'.1, kv'.2.LastAccess) ∈ sortByTime s.memory :=
      hperm.mem_iff.mpr (List.mem_map.mpr ⟨kv', hkv'mem, rfl⟩)
    have hsplit : (sortByTime s.memory).take
          (s.memory.length -
            clearTarget s.cfg.MaximumMemory s.cfg.ClearAfterRatio) ++
        (sortByTime s.memory).drop
          (s.memory.length -
            clearTarget s.cfg.MaximumMemory s.cfg.ClearAfterRatio) =
        sortByTime s.memory := List.take_append_drop _ _
    have hpair'drop : (kv'.1, kv'.2.LastAccess) ∈
        (sortByTime s.memory).drop
          (s.memory.length -
            clearTarget s.cfg.MaximumMemory s.cfg.ClearAfterRatio) := by
      have hpm : (kv'.1, kv'.2.LastAccess) ∈
          (sortByTime s.memory).take
            (s.memory.length -
              clearTarget s.cfg.MaximumMemory s.cfg.ClearAfterRatio) ++
          (sortByTime s.memory).drop
            (s.memory.length -
              clearTarget s.cfg.MaximumMemory s.cfg.ClearAfterRatio) := by
        rw [hsplit]
        exact hpair'
      rcases List.mem_append.mp hpm with hmem1 | hmem2
      · exact absurd (List.mem_map.mpr ⟨_, hmem1, rfl⟩) hkv'nin
      · exact hmem2
    have hpw : List.Pairwise (fun a b : String × Nat => a.2 ≤ b.2)
        (((sortByTime s.memory).take
            (s.memory.length -
              clearTarget s.cfg.MaximumMemory s.cfg.ClearAfterRatio)) ++
          ((sortByTime s.memory).drop
            (s.memory.length -
              clearTarget s.cfg.MaximumMemory s.cfg.ClearAfterRatio))) := by
      rw [hsplit]
      exact sortByTime_sorted s.memory
    have := (List.pairwise_append.mp hpw).2.2 pr hprt _ hpair'drop
    rw [hprval] at this
    exact this
  · -- persist-then-drop
    intro c hcfg
    rw [e3 kv.1 kv.2 hin hget]
    cases hsv : save kv.2 with
    | none => simp [save, hcfg] at hsv
    | some f => rfl



theorem claim_C6_witness :
    stateInv s0 ∧ ValidConfig s0.cfg ∧
    ((s0.memory.length ≤ s0.cfg.MaximumMemory → clearTick s0 = s0) ∧
      (s0.cfg.MaximumMemory < s0.memory.length →
        (clearTick s0).memory.length =
            clearTarget s0.cfg.MaximumMemory s0.cfg.ClearAfterRatio ∧
        (clearTarget s0.cfg.MaximumMemory s0.cfg.ClearAfterRatio : ℤ) =
            ⌈(s0.cfg.MaximumMemory : ℚ) * s0.cfg.ClearAfterRatio⌉ ∧
        (∀ kv ∈ (clearTick s0).memory, kv ∈ s0.memory) ∧
        (∀ kv ∈ s0.memory, getEntry (clearTick s0).memory kv.1 = none →
          (∀ kv' ∈ (clearTick s0).memory, kv.2.LastAccess ≤ kv'.2.LastAccess) ∧
          (∀ c, kv.2.Config = some c →
            getEntry (clearTick s0).disk kv.1 = save kv.2)))) :=
  ⟨by decide, by decide, claim_C6 s0 (by decide) (by decide)⟩

/-! ### Trace machinery for the append-order and uniqueness claims -/







theorem configNE_of_content_eq {p q : FileMemoryPollResult}
    (h : content p = content q) (hc : configNE p) : configNE q := by
  simp only [content, Prod.mk.injEq] at h
  obtain ⟨c, hcfg, hne⟩ := hc
  exact ⟨c, h.2.2.2.1 ▸ hcfg, hne⟩

theorem effRecord_congr {s s' : StoreState} (j : String)
    (hmem : getEntry s'.memory j = getEntry s.memory j)
    (hdisk : getEntry s'.disk j = getEntry s.disk j)
    (hnow : s'.now = s.now) : effRecord s' j = effRecord s j := by
  unfold effRecord
  rw [hmem, hdisk, hnow]

theorem content_load_save {p : FileMemoryPollResult} {c : List Nat} {f : FMFile}
    (hWF : recordWF p) (hc : p.Config = some c) (hcne : c ≠ [])
    (hf : save p = some f) (t : Nat) :
    content (load f t) = content p := by
  obtain ⟨h1, h2, h3, h4⟩ := hWF
  have hl := load_save hc (le_of_eq (h1 ▸ h3.symm)) (le_of_eq (h1 ▸ h4.symm)) hf t
  rw [hl]
  simp [content, decodeConfig, hcne, hc]

theorem delEntry_of_getEntry_none {α : Type} {m : List (String × α)} {k : String}
    (h : getEntry m k = none) : delEntry m k = m := by
  induction m with
  | nil => rfl
  | cons kv rest ih =>
      obtain ⟨k', v'⟩ := kv
      by_cases hk : k' = k
      · subst hk
        simp [getEntry] at h
      · simp only [getEntry, if_neg hk] at h
        simp [delEntry, hk, ih h]

theorem saveToDisk_effRecord (s : StoreState) (id j : String) :
    effRecord (saveToDisk s id) j = effRecord s j := by
  cases hp : getEntry s.memory id with
  | none =>
      have hs : saveToDisk s id = s := by simp [saveToDisk, hp]
      rw [hs]
  | some p =>
      cases hf : save p with
      | none =>
          have hs : saveToDisk s id = s := by simp [saveToDisk, hp, hf]
          rw [hs]
      | some f =>
          by_cases hj : j = id
          · subst hj
            unfold effRecord
            rw [(saveToDisk_memory s j).1, hp]
          · apply effRecord_congr
            · rw [(saveToDisk_memory s id).1]
            · exact saveToDisk_disk_ne s id j hj
            · exact (saveToDisk_memory s id).2.2.2

theorem evictOne_effRecord {s : StoreState} (hInv : stateInv s) (id j : String)
    (hc : configNE (effRecord s j)) :
    content (effRecord (evictOne s id) j) = content (effRecord s j) := by
  by_cases hj : j = id
  · subst hj
    cases hp : getEntry s.memory j with
    | none =>
        have h1 : saveToDisk s j = s := by simp [saveToDisk, hp]
        have hs : evictOne s j = s := by
          simp only [evictOne, h1]
          rw [delEntry_of_getEntry_none hp]
        rw [hs]
    | some p =>
        have heffp : effRecord s j = p := by
          unfold effRecord
          rw [hp]
        obtain ⟨c, hcfg, hcne⟩ := hc
        rw [heffp] at hcfg
        have hf : save p = some { data := p.Data, names := p.Names
                                  comments := p.Comments, config := c
                                  deleted := p.Deleted, creator := p.Creator
                                  change := p.Change, ids := p.IDs
                                  answerCounter := p.AnswerCounter } := by
          simp [save, hcfg]
        have hmm : getEntry (evictOne s j).memory j = none := by
          rw [evictOne_memory, getEntry_delEntry, if_pos rfl]
        have hdd : getEntry (evictOne s j).disk j =
            some { data := p.Data, names := p.Names
                   comments := p.Comments, config := c
                   deleted := p.Deleted, creator := p.Creator
                   change := p.Change, ids := p.IDs
                   answerCounter := p.AnswerCounter } := by
          rw [evictOne_disk, saveToDisk_disk_self hp, hf]
        have heff' : effRecord (evictOne s j) j =
            load { data := p.Data, names := p.Names
                   comments := p.Comments, config := c
                   deleted := p.Deleted, creator := p.Creator
                   change := p.Change, ids := p.IDs
                   answerCounter := p.AnswerCounter } (evictOne s j).now := by
          unfold effRecord
          rw [hmm, hdd]
        rw [heff', heffp]
        exact content_load_save (hInv.1 _ (getEntry_mem hp)) hcfg hcne hf _
  · have heq : effRecord (evictOne s id) j = effRecord s j := by
      apply effRecord_congr
      · rw [evictOne_memory, getEntry_delEntry, if_neg hj]
      · rw [evictOne_disk]
        exact saveToDisk_disk_ne s id j hj
      · exact (evictOne_cfg s id).2.2
    rw [heq]

theorem content_eq_fields {p q : FileMemoryPollResult} (h : content p = content q) :
    p.Data = q.Data ∧ p.Names = q.Names ∧ p.Comments = q.Comments ∧
      p.Config = q.Config ∧ p.Deleted = q.Deleted ∧ p.Creator = q.Creator ∧
      p.Change = q.Change ∧ p.IDs = q.IDs ∧ p.AnswerCounter = q.AnswerCounter := by
  simp only [content, Prod.mk.injEq] at h
  exact ⟨h.1, h.2.1, h.2.2.1, h.2.2.2.1, h.2.2.2.2.1, h.2.2.2.2.2.1,
    h.2.2.2.2.2.2.1, h.2.2.2.2.2.2.2.1, h.2.2.2.2.2.2.2.2⟩

theorem evictLoop_meta (target : Nat) :
    ∀ (l : List (String × Nat)) (s : StoreState),
      (evictLoop target s l).active = s.active ∧
      (evictLoop target s l).cfg = s.cfg ∧
      (evictLoop target s l).now = s.now := by
  intro l
  induction l with
  | nil => intro s; exact ⟨rfl, rfl, rfl⟩
  | cons e rest ih =>
      intro s
      rw [evictLoop]
      by_cases hc : s.memory.length ≤ target
      · rw [if_pos hc]
        exact ⟨rfl, rfl, rfl⟩
      · rw [if_neg hc]
        obtain ⟨i1, i2, i3⟩ := ih (evictOne s e.1)
        obtain ⟨c1, c2, c3⟩ := evictOne_cfg s e.1
        exact ⟨by rw [i1, c2], by rw [i2, c1], by rw [i3, c3]⟩

theorem evictLoop_content {target : Nat} {j : String} :
    ∀ (l : List (String × Nat)) (s : StoreState), stateInv s →
      configNE (effRecord s j) →
      content (effRecord (evictLoop target s l) j) = content (effRecord s j) := by
  intro l
  induction l with
  | nil => intro s _ _; rfl
  | cons e rest ih =>
      intro s hInv hc
      rw [evictLoop]
      by_cases hcond : s.memory.length ≤ target
      · rw [if_pos hcond]
      · rw [if_neg hcond]
        have h1 := evictOne_effRecord hInv e.1 j hc
        have h2 := ih (evictOne s e.1) (stateInv_evictOne hInv e.1)
          (configNE_of_content_eq h1.symm hc)
        rw [h2, h1]

theorem clearTick_content {s : StoreState} (hInv : stateInv s) (j : String)
    (hc : configNE (effRecord s j)) :
    content (effRecord (clearTick s) j) = content (effRecord s j) := by
  rw [clearTick]
  by_cases hcond : s.memory.length ≤ s.cfg.MaximumMemory
  · rw [if_pos hcond]
  · rw [if_neg hcond]
    exact evictLoop_content _ s hInv hc

theorem clearTick_meta (s : StoreState) :
    (clearTick s).active = s.active ∧ (clearTick s).cfg = s.cfg ∧
      (clearTick s).now = s.now := by
  rw [clearTick]
  by_cases hcond : s.memory.length ≤ s.cfg.MaximumMemory
  · rw [if_pos hcond]
    exact ⟨rfl, rfl, rfl⟩
  · rw [if_neg hcond]
    exact evictLoop_meta _ _ s

theorem saveFold_effRecord (j : String) :
    ∀ (l : List (String × FileMemoryPollResult)) (s : StoreState),
      effRecord (l.foldl (fun acc kv => saveToDisk acc kv.1) s) j =
        effRecord s j := by
  intro l
  induction l with
  | nil => intro s; rfl
  | cons e rest ih =>
      intro s
      rw [List.foldl_cons, ih (saveToDisk s e.1), saveToDisk_effRecord]

theorem saveFold_meta :
    ∀ (l : List (String × FileMemoryPollResult)) (s : StoreState),
      (l.foldl (fun acc kv => saveToDisk acc kv.1) s).active = s.active ∧
      (l.foldl (fun acc kv => saveToDisk acc kv.1) s).cfg = s.cfg ∧
      (l.foldl (fun acc kv => saveToDisk acc kv.1) s).now = s.now ∧
      (l.foldl (fun acc kv => saveToDisk acc kv.1) s).memory = s.memory := by
  intro l
  induction l with
  | nil => intro s; exact ⟨rfl, rfl, rfl, rfl⟩
  | cons e rest ih =>
      intro s
      rw [List.foldl_cons]
      obtain ⟨i1, i2, i3, i4⟩ := ih (saveToDisk s e.1)
      obtain ⟨m1, m2, m3, m4⟩ := saveToDisk_memory s e.1
      exact ⟨by rw [i1, m3], by rw [i2, m2], by rw [i3, m4], by rw [i4, m1]⟩

theorem syncTick_effRecord (s : StoreState) (j : String) :
    effRecord (syncTick s) j = effRecord s j :=
  saveFold_effRecord j s.memory s

theorem syncTick_meta (s : StoreState) :
    (syncTick s).active = s.active ∧ (syncTick s).cfg = s.cfg ∧
      (syncTick s).now = s.now :=
  ⟨(saveFold_meta s.memory s).1, (saveFold_meta s.memory s).2.1,
    (saveFold_meta s.memory s).2.2.1⟩

theorem run_cons (s : StoreState) (op : Op) (rest : List Op) :
    run s (op :: rest) = run (step s op).2 rest := by
  simp [run, runWithOuts]

theorem effRecord_spec_step {s' : StoreState} {iid : String}
    {pNew : FileMemoryPollResult}
    (hself : getEntry s'.memory iid = some pNew) :
    effRecord s' iid = pNew := by
  unfold effRecord
  rw [hself]

theorem runC3 (P iid : String) (hg : getInternalID P = .ok iid) :
    ∀ (ops : List Op) (s : StoreState),
      (∀ op ∈ ops, allowedC3 P op = true) →
      stateInv s → s.active = true → configNE (effRecord s iid) →
      stateInv (run s ops) ∧ (run s ops).active = true ∧
      configNE (effRecord (run s ops) iid) ∧
      (effRecord (run s ops) iid).Data =
        (effRecord s iid).Data ++ savedResults P ops ∧
      (effRecord (run s ops) iid).Names =
        (effRecord s iid).Names ++ savedNames P ops ∧
      (effRecord (run s ops) iid).Comments =
        (effRecord s iid).Comments ++ savedComments P ops ∧
      (effRecord (run s ops) iid).IDs.length =
        (effRecord s iid).IDs.length + (savedResults P ops).length := by
  intro ops
  induction ops with
  | nil =>
      intro s _ hInv ha hc
      refine ⟨hInv, ha, hc, ?_, ?_, ?_, ?_⟩ <;>
        simp [run, runWithOuts, savedResults, savedNames, savedComments]
  | cons op rest ih =>
      intro s hops hInv ha hc
      have hop := hops op (List.mem_cons_self _ _)
      have hrest : ∀ o ∈ rest, allowedC3 P o = true :=
        fun o ho => hops o (List.mem_cons_of_mem _ ho)
      cases op with
      | savePollResult pid name comment results change suffix =>
          have hpid : pid = P := by
            simpa [allowedC3] using hop
          subst hpid
          obtain ⟨s', hopEq, hcfg, hdisk, hact, hnow, hself, hother, hmem, hnd⟩ :=
            savePollResult_spec name comment results change suffix ha hg
          have hstep : (step s (.savePollResult pid name comment results change
              suffix)).2 = { s' with now := s'.now + 1 } := by
            simp [step, applyOp, hopEq]
          rw [run_cons, hstep]
          have heff' : effRecord s' iid = { effRecord s iid with
              Data := (effRecord s iid).Data ++ [results]
              Names := (effRecord s iid).Names ++ [name]
              Comments := (effRecord s iid).Comments ++ [comment]
              Change := (effRecord s iid).Change ++ [change]
              AnswerCounter := (effRecord s iid).AnswerCounter + 1
              IDs := (effRecord s iid).IDs ++
                [mkAnswerID ((effRecord s iid).AnswerCounter + 1) suffix]
              LastAccess := s.now } := effRecord_spec_step hself
          have hcontent := effRecord_set_now s' (s'.now + 1) iid
          obtain ⟨f1, f2, f3, f4, f5, f6, f7, f8, f9⟩ := content_eq_fields hcontent
          have hInv2 : stateInv { s' with now := s'.now + 1 } := by
            have h1 := stateInv_step hInv (.savePollResult pid name comment
              results change suffix)
            rw [hstep] at h1
            exact h1
          have hact2 : ({ s' with now := s'.now + 1 } : StoreState).active = true := by
            show s'.active = true
            rw [hact, ha]
          have hc2 : configNE (effRecord { s' with now := s'.now + 1 } iid) := by
            apply configNE_of_content_eq hcontent.symm
            rw [heff']
            obtain ⟨c, hcc, hcne⟩ := hc
            exact ⟨c, hcc, hcne⟩
          obtain ⟨r1, r2, r3, r4, r5, r6, r7⟩ :=
            ih { s' with now := s'.now + 1 } hrest hInv2 hact2 hc2
          refine ⟨r1, r2, r3, ?_, ?_, ?_, ?_⟩
          · rw [r4, f1, heff']
            simp [savedResults]
          · rw [r5, f2, heff']
            simp [savedNames]
          · rw [r6, f3, heff']
            simp [savedComments]
          · rw [r7, f8, heff']
            simp [savedResults]
            omega
      | clearTick =>
          have hstep : (step s .clearTick).2 = { clearTick s with
              now := (clearTick s).now + 1 } := by
            simp [step, applyOp]
          rw [run_cons, hstep]
          have hcontent1 := clearTick_content hInv iid hc
          have hcontent2 := effRecord_set_now (clearTick s) ((clearTick s).now + 1) iid
          have hcontent : content (effRecord { clearTick s with
              now := (clearTick s).now + 1 } iid) = content (effRecord s iid) := by
            rw [hcontent2, hcontent1]
          obtain ⟨f1, f2, f3, f4, f5, f6, f7, f8, f9⟩ := content_eq_fields hcontent
          have hInv2 : stateInv { clearTick s with now := (clearTick s).now + 1 } := by
            have h1 := stateInv_step hInv .clearTick
            rw [hstep] at h1
            exact h1
          have hact2 : ({ clearTick s with
              now := (clearTick s).now + 1 } : StoreState).active = true := by
            show (clearTick s).active = true
            rw [(clearTick_meta s).1, ha]
          have hc2 := configNE_of_content_eq hcontent.symm hc
          obtain ⟨r1, r2, r3, r4, r5, r6, r7⟩ :=
            ih _ hrest hInv2 hact2 hc2
          refine ⟨r1, r2, r3, ?_, ?_, ?_, ?_⟩
          · rw [r4, f1]; rfl
          · rw [r5, f2]; rfl
          · rw [r6, f3]; rfl
          · rw [r7, f8]; rfl
      | syncTick =>
          have hstep : (step s .syncTick).2 = { syncTick s with
              now := (syncTick s).now + 1 } := by
            simp [step, applyOp]
          rw [run_cons, hstep]
          have hcontent1 : content (effRecord (syncTick s) iid) =
              content (effRecord s iid) := by
            rw [syncTick_effRecord]
          have hcontent2 := effRecord_set_now (syncTick s) ((syncTick s).now + 1) iid
          have hcontent : content (effRecord { syncTick s with
              now := (syncTick s).now + 1 } iid) = content (effRecord s iid) := by
            rw [hcontent2, hcontent1]
          obtain ⟨f1, f2, f3, f4, f5, f6, f7, f8, f9⟩ := content_eq_fields hcontent
          have hInv2 : stateInv { syncTick s with now := (syncTick s).now + 1 } := by
            have h1 := stateInv_step hInv .syncTick
            rw [hstep] at h1
            exact h1
          have hact2 : ({ syncTick s with
              now := (syncTick s).now + 1 } : StoreState).active = true := by
            show (syncTick s).active = true
            rw [(syncTick_meta s).1, ha]
          have hc2 := configNE_of_content_eq hcontent.symm hc
          obtain ⟨r1, r2, r3, r4, r5, r6, r7⟩ :=
            ih _ hrest hInv2 hact2 hc2
          refine ⟨r1, r2, r3, ?_, ?_, ?_, ?_⟩
          · rw [r4, f1]; rfl
          · rw [r5, f2]; rfl
          · rw [r6, f3]; rfl
          · rw [r7, f8]; rfl
      | overwritePollResult a b c d e f => simp [allowedC3] at hop
      | getPollResult a => simp [allowedC3] at hop
      | getSinglePollResult a b => simp [allowedC3] at hop
      | deleteAnswer a b => simp [allowedC3] at hop
      | savePollConfig a b => simp [allowedC3] at hop
      | getPollConfig a => simp [allowedC3] at hop
      | savePollCreator a b => simp [allowedC3] at hop
      | getPollCreator a => simp [allowedC3] at hop
      | markPollDeleted a => simp [allowedC3] at hop
      | getChange a b => simp [allowedC3] at hop
      | runGC => simp [allowedC3] at hop
      | flushAndClose => simp [allowedC3] at hop


set_option maxRecDepth 10000 in
/-- Claim C3, counterexample to the statement as frozen: on a store with
`MaximumMemory = 1` and `ClearAfterRatio = 0`, saving one row for the
never-configured poll `P`, touching a second poll `Q`, and letting a
clear tick run drops `P`'s record without writing it (no config), so
the following `GetPollResult` returns no rows instead of the one saved
row: the rows are not returned in the order of the `SavePollResult`
calls when an eviction intervenes on an unconfigured poll. -/
theorem claim_C3_counterexample :
    (runWithOuts s0
      [.savePollResult "P" "n" "c" [0] "ch" "A",
       .savePollResult "Q" "" "" [] "" "B",
       .clearTick,
       .getPollResult "P"]).2 =
      [.ok (.id "1-A"), .ok (.id "1-B"), .ok .unit,
       .ok (.results ([], [], [], []))] ∧
    (Except.ok (Out.results ([], [], [], [])) : Except FMErr Out) ≠
      .ok (.results ([[0]], ["n"], ["c"], ["1-A"])) := by
  decide

/-- Claim C3 (amended): for every sequence of `SavePollResult` calls on
one poll, interleaved with arbitrary eviction passes and disc syncs,
`GetPollResult` returns the rows in exactly the order of the calls and
the four returned sequences have equal length — provided the poll's
config has been saved and is non-empty (otherwise an eviction pass
silently discards the rows, see the counterexample). -/
theorem claim_C3 (P iid : String) (ops : List Op) (s : StoreState)
    (hg : getInternalID P = .ok iid)
    (hops : ∀ op ∈ ops, allowedC3 P op = true)
    (hInv : stateInv s) (ha : s.active = true)
    (hc : configNE (effRecord s iid)) :
    ∃ D N C I, (getPollResult (run s ops) P).1 = .ok (D, N, C, I) ∧
      D = (effRecord s iid).Data ++ savedResults P ops ∧
      N = (effRecord s iid).Names ++ savedNames P ops ∧
      C = (effRecord s iid).Comments ++ savedComments P ops ∧
      N.length = D.length ∧ C.length = D.length ∧ I.length = D.length := by
  obtain ⟨r1, r2, r3, r4, r5, r6, r7⟩ := runC3 P iid hg ops s hops hInv ha hc
  obtain ⟨s', hopEq, -⟩ := getPollResult_spec r2 hg
  obtain ⟨w1, w2, w3, w4⟩ := effRecord_WF r1 iid
  refine ⟨(effRecord (run s ops) iid).Data, (effRecord (run s ops) iid).Names,
    (effRecord (run s ops) iid).Comments, (effRecord (run s ops) iid).IDs,
    ?_, r4, r5, r6, w1, w2, w4⟩
  rw [hopEq]

theorem claim_C3_witness :
    getInternalID "P" = .ok "P" ∧
    (∀ op ∈ ([.savePollResult "P" "n" "c" [0] "ch" "A", .clearTick,
        .savePollResult "P" "m" "d" [1] "ch2" "B"] : List Op),
      allowedC3 "P" op = true) ∧
    stateInv s1c ∧ s1c.active = true ∧ configNE (effRecord s1c "P") ∧
    (∃ D N C I, (getPollResult (run s1c
        [.savePollResult "P" "n" "c" [0] "ch" "A", .clearTick,
         .savePollResult "P" "m" "d" [1] "ch2" "B"]) "P").1 = .ok (D, N, C, I) ∧
      D = (effRecord s1c "P").Data ++ savedResults "P"
        [.savePollResult "P" "n" "c" [0] "ch" "A", .clearTick,
         .savePollResult "P" "m" "d" [1] "ch2" "B"] ∧
      N = (effRecord s1c "P").Names ++ savedNames "P"
        [.savePollResult "P" "n" "c" [0] "ch" "A", .clearTick,
         .savePollResult "P" "m" "d" [1] "ch2" "B"] ∧
      C = (effRecord s1c "P").Comments ++ savedComments "P"
        [.savePollResult "P" "n" "c" [0] "ch" "A", .clearTick,
         .savePollResult "P" "m" "d" [1] "ch2" "B"] ∧
      N.length = D.length ∧ C.length = D.length ∧ I.length = D.length) :=
  ⟨by decide, by decide, by decide, rfl, ⟨[1], rfl, by decide⟩,
   claim_C3 "P" "P" _ s1c (by decide) (by decide) (by decide) rfl
     ⟨[1], rfl, by decide⟩⟩

theorem answerCounter_set_now (s : StoreState) (t : Nat) (j : String) :
    (effRecord { s with now := t } j).AnswerCounter =
      (effRecord s j).AnswerCounter :=
  (content_eq_fields (effRecord_set_now s t j)).2.2.2.2.2.2.2.2

theorem counter_le_of_update {s s' : StoreState} {iidQ : String}
    {pNew : FileMemoryPollResult} (iid : String)
    (hdisk : s'.disk = s.disk) (hnow : s'.now = s.now)
    (hself : getEntry s'.memory iidQ = some pNew)
    (hother : ∀ j, j ≠ iidQ → getEntry s'.memory j = getEntry s.memory j)
    (hcount : (effRecord s iidQ).AnswerCounter ≤ pNew.AnswerCounter) :
    (effRecord s iid).AnswerCounter ≤ (effRecord s' iid).AnswerCounter := by
  by_cases h : iid = iidQ
  · subst h
    rw [effRecord_spec_step hself]
    exact hcount
  · rw [effRecord_congr iid (hother iid h) (by rw [hdisk]) hnow]

theorem step_snd (s : StoreState) (op : Op) :
    (step s op).2 = { (applyOp s op).2 with now := (applyOp s op).2.now + 1 } :=
  rfl

theorem runWithOuts_snd_cons (s : StoreState) (op : Op) (rest : List Op) :
    (runWithOuts s (op :: rest)).2 =
      (step s op).1 :: (runWithOuts (step s op).2 rest).2 := by
  simp [runWithOuts]

theorem idsForPoll_cons_notSave {P : String} {op : Op} {ops : List Op}
    {o : Except FMErr Out} {outs : List (Except FMErr Out)}
    (h : ∀ pid name comment results change suffix,
        op ≠ Op.savePollResult pid name comment results change suffix) :
    idsForPoll P (op :: ops) (o :: outs) = idsForPoll P ops outs := by
  cases o with
  | error e =>
      cases op <;> first | exact absurd rfl (h _ _ _ _ _ _) | rfl
  | ok out =>
      cases out <;> cases op <;> first | exact absurd rfl (h _ _ _ _ _ _) | rfl

theorem idsForPoll_cons_saveOther {P pid name comment : String}
    {results : List Int} {change suffix : String} {ops : List Op}
    {o : Except FMErr Out} {outs : List (Except FMErr Out)}
    (h : pid ≠ P) :
    idsForPoll P (Op.savePollResult pid name comment results change suffix :: ops)
      (o :: outs) = idsForPoll P ops outs := by
  cases o with
  | error e => rfl
  | ok out =>
      cases out with
      | id x =>
          show (if pid = P then x :: idsForPoll P ops outs
            else idsForPoll P ops outs) = idsForPoll P ops outs
          rw [if_neg h]
      | unit => rfl
      | results r => rfl
      | single r => rfl
      | config c => rfl
      | creator c => rfl
      | change c => rfl

theorem idsForPoll_cons_saveSelf {P name comment : String} {results : List Int}
    {change suffix x : String} {ops : List Op}
    {outs : List (Except FMErr Out)} :
    idsForPoll P (Op.savePollResult P name comment results change suffix :: ops)
      (Except.ok (Out.id x) :: outs) = x :: idsForPoll P ops outs := by
  show (if P = P then x :: idsForPoll P ops outs
    else idsForPoll P ops outs) = x :: idsForPoll P ops outs
  rw [if_pos rfl]

theorem answerCounter_applyOp (iid : String) {s : StoreState} (op : Op)
    (hInv : stateInv s) (hop : allowedC4 op = true) :
    (effRecord s iid).AnswerCounter ≤
      (effRecord (applyOp s op).2 iid).AnswerCounter := by
  cases op with
  | clearTick => simp [allowedC4] at hop
  | flushAndClose => simp [allowedC4] at hop
  | runGC => simp [allowedC4] at hop
  | syncTick =>
      exact le_of_eq
        (congrArg FileMemoryPollResult.AnswerCounter (syncTick_effRecord s iid)).symm
  | savePollResult pollID name comment results change suffix =>
      by_cases ha : s.active = true
      · cases hg : getInternalID pollID with
        | error e =>
            have he := getInternalID_error hg
            subst he
            rw [@applyOp_invalid _ (Op.savePollResult pollID name comment results change suffix) _ ha rfl hg]
        | ok iidQ =>
            obtain ⟨s', hopEq, hcfg, hdisk, hact, hnow, hself, hother, hmem, hnd⟩ :=
              savePollResult_spec name comment results change suffix ha hg
            have h2 : (applyOp s
                (.savePollResult pollID name comment results change suffix)).2 = s' := by
              simp [applyOp, hopEq]
            rw [h2]
            exact counter_le_of_update iid hdisk hnow hself hother (Nat.le_succ _)
      · rw [@applyOp_notActive _ (Op.savePollResult pollID name comment results change suffix) _ (by simpa using ha) rfl]
  | overwritePollResult pollID answerID name comment results change =>
      by_cases ha : s.active = true
      · cases hg : getInternalID pollID with
        | error e =>
            have he := getInternalID_error hg
            subst he
            rw [@applyOp_invalid _ (Op.overwritePollResult pollID answerID name comment results change) _ ha rfl hg]
        | ok iidQ =>
            cases hlk : lookupIndex (effRecord s iidQ).IDs answerID with
            | none =>
                obtain ⟨s', hopEq, hcfg, hdisk, hact, hnow, hself, hother, hmem, hnd⟩ :=
                  overwritePollResult_notFound answerID name comment results change ha hg hlk
                have h2 : (applyOp s
                    (.overwritePollResult pollID answerID name comment results change)).2 = s' := by
                  simp [applyOp, hopEq]
                rw [h2]
                exact counter_le_of_update iid hdisk hnow hself hother (le_refl _)
            | some i =>
                obtain ⟨s', hopEq, hcfg, hdisk, hact, hnow, hself, hother, hmem, hnd⟩ :=
                  overwritePollResult_found name comment results change ha hg hlk
                have h2 : (applyOp s
                    (.overwritePollResult pollID answerID name comment results change)).2 = s' := by
                  simp [applyOp, hopEq]
                rw [h2]
                exact counter_le_of_update iid hdisk hnow hself hother (le_of_eq rfl)
      · rw [@applyOp_notActive _ (Op.overwritePollResult pollID answerID name comment results change) _ (by simpa using ha) rfl]
  | getPollResult pollID =>
      by_cases ha : s.active = true
      · cases hg : getInternalID pollID with
        | error e =>
            have he := getInternalID_error hg
            subst he
            rw [@applyOp_invalid _ (Op.getPollResult pollID) _ ha rfl hg]
        | ok iidQ =>
            obtain ⟨s', hopEq, hcfg, hdisk, hact, hnow, hself, hother, hmem, hnd⟩ :=
              getPollResult_spec ha hg
            have h2 : (applyOp s (.getPollResult pollID)).2 = s' := by
              simp [applyOp, hopEq]
            rw [h2]
            exact counter_le_of_update iid hdisk hnow hself hother (le_of_eq rfl)
      · rw [@applyOp_notActive _ (Op.getPollResult pollID) _ (by simpa using ha) rfl]
  | getSinglePollResult pollID answerID =>
      by_cases ha : s.active = true
      · cases hg : getInternalID pollID with
        | error e =>
            have he := getInternalID_error hg
            subst he
            rw [@applyOp_invalid _ (Op.getSinglePollResult pollID answerID) _ ha rfl hg]
        | ok iidQ =>
            cases hlk : lookupIndex (effRecord s iidQ).IDs answerID with
            | none =>
                obtain ⟨s', hopEq, hcfg, hdisk, hact, hnow, hself, hother, hmem, hnd⟩ :=
                  getSinglePollResult_notFound answerID ha hg hlk
                have h2 : (applyOp s (.getSinglePollResult pollID answerID)).2 = s' := by
                  simp [applyOp, hopEq]
                rw [h2]
                exact counter_le_of_update iid hdisk hnow hself hother (le_refl _)
            | some i =>
                obtain ⟨s', hopEq, hcfg, hdisk, hact, hnow, hself, hother, hmem, hnd⟩ :=
                  getSinglePollResult_found ha hg hlk
                have h2 : (applyOp s (.getSinglePollResult pollID answerID)).2 = s' := by
                  simp [applyOp, hopEq]
                rw [h2]
                exact counter_le_of_update iid hdisk hnow hself hother (le_of_eq rfl)
      · rw [@applyOp_notActive _ (Op.getSinglePollResult pollID answerID) _ (by simpa using ha) rfl]
  | deleteAnswer pollID answerID =>
      by_cases ha : s.active = true
      · cases hg : getInternalID pollID with
        | error e =>
            have he := getInternalID_error hg
            subst he
            rw [@applyOp_invalid _ (Op.deleteAnswer pollID answerID) _ ha rfl hg]
        | ok iidQ =>
            cases hlk : lookupIndex (effRecord s iidQ).IDs answerID with
            | none =>
                obtain ⟨s', hopEq, hcfg, hdisk, hact, hnow, hself, hother, hmem, hnd⟩ :=
                  deleteAnswer_notFound answerID ha hg hlk
                have h2 : (applyOp s (.deleteAnswer pollID answerID)).2 = s' := by
                  simp [applyOp, hopEq]
                rw [h2]
                exact counter_le_of_update iid hdisk hnow hself hother (le_refl _)
            | some i =>
                obtain ⟨s', hopEq, hcfg, hdisk, hact, hnow, hself, hother, hmem, hnd⟩ :=
                  deleteAnswer_found ha hg hlk
                have h2 : (applyOp s (.deleteAnswer pollID answerID)).2 = s' := by
                  simp [applyOp, hopEq]
                rw [h2]
                exact counter_le_of_update iid hdisk hnow hself hother (le_of_eq rfl)
      · rw [@applyOp_notActive _ (Op.deleteAnswer pollID answerID) _ (by simpa using ha) rfl]
  | savePollConfig pollID c =>
      by_cases ha : s.active = true
      · cases hg : getInternalID pollID with
        | error e =>
            have he := getInternalID_error hg
            subst he
            rw [@applyOp_invalid _ (Op.savePollConfig pollID c) _ ha rfl hg]
        | ok iidQ =>
            obtain ⟨s', hopEq, hcfg, hdisk, hact, hnow, hself, hother, hmem, hnd⟩ :=
              savePollConfig_spec c ha hg
            have h2 : (applyOp s (.savePollConfig pollID c)).2 = s' := by
              simp [applyOp, hopEq]
            rw [h2]
            exact counter_le_of_update iid hdisk hnow hself hother (le_of_eq rfl)
      · rw [@applyOp_notActive _ (Op.savePollConfig pollID c) _ (by simpa using ha) rfl]
  | getPollConfig pollID =>
      by_cases ha : s.active = true
      · cases hg : getInternalID pollID with
        | error e =>
            have he := getInternalID_error hg
            subst he
            rw [@applyOp_invalid _ (Op.getPollConfig pollID) _ ha rfl hg]
        | ok iidQ =>
            obtain ⟨s', hopEq, hcfg, hdisk, hact, hnow, hself, hother, hmem, hnd⟩ :=
              getPollConfig_spec ha hg
            have h2 : (applyOp s (.getPollConfig pollID)).2 = s' := by
              simp [applyOp, hopEq]
            rw [h2]
            exact counter_le_of_update iid hdisk hnow hself hother (le_of_eq rfl)
      · rw [@applyOp_notActive _ (Op.getPollConfig pollID) _ (by simpa using ha) rfl]
  | savePollCreator pollID name =>
      by_cases ha : s.active = true
      · cases hg : getInternalID pollID with
        | error e =>
            have he := getInternalID_error hg
            subst he
            rw [@applyOp_invalid _ (Op.savePollCreator pollID name) _ ha rfl hg]
        | ok iidQ =>
            obtain ⟨s', hopEq, hcfg, hdisk, hact, hnow, hself, hother, hmem, hnd⟩ :=
              savePollCreator_spec name ha hg
            have h2 : (applyOp s (.savePollCreator pollID name)).2 = s' := by
              simp [applyOp, hopEq]
            rw [h2]
            exact counter_le_of_update iid hdisk hnow hself hother (le_of_eq rfl)
      · rw [@applyOp_notActive _ (Op.savePollCreator pollID name) _ (by simpa using ha) rfl]
  | getPollCreator pollID =>
      by_cases ha : s.active = true
      · cases hg : getInternalID pollID with
        | error e =>
            have he := getInternalID_error hg
            subst he
            rw [@applyOp_invalid _ (Op.getPollCreator pollID) _ ha rfl hg]
        | ok iidQ =>
            obtain ⟨s', hopEq, hcfg, hdisk, hact, hnow, hself, hother, hmem, hnd⟩ :=
              getPollCreator_spec ha hg
            have h2 : (applyOp s (.getPollCreator pollID)).2 = s' := by
              simp [applyOp, hopEq]
            rw [h2]
            exact counter_le_of_update iid hdisk hnow hself hother (le_of_eq rfl)
      · rw [@applyOp_notActive _ (Op.getPollCreator pollID) _ (by simpa using ha) rfl]
  | markPollDeleted pollID =>
      by_cases ha : s.active = true
      · cases hg : getInternalID pollID with
        | error e =>
            have he := getInternalID_error hg
            subst he
            rw [@applyOp_invalid _ (Op.markPollDeleted pollID) _ ha rfl hg]
        | ok iidQ =>
            obtain ⟨s', hopEq, hcfg, hdisk, hact, hnow, hself, hother, hmem, hnd⟩ :=
              markPollDeleted_spec ha hg
            have h2 : (applyOp s (.markPollDeleted pollID)).2 = s' := by
              simp [applyOp, hopEq]
            rw [h2]
            exact counter_le_of_update iid hdisk hnow hself hother (le_of_eq rfl)
      · rw [@applyOp_notActive _ (Op.markPollDeleted pollID) _ (by simpa using ha) rfl]
  | getChange pollID answerID =>
      by_cases ha : s.active = true
      · cases hg : getInternalID pollID with
        | error e =>
            have he := getInternalID_error hg
            subst he
            rw [@applyOp_invalid _ (Op.getChange pollID answerID) _ ha rfl hg]
        | ok iidQ =>
            cases hlk : lookupIndex (effRecord s iidQ).IDs answerID with
            | none =>
                obtain ⟨s', hopEq, hcfg, hdisk, hact, hnow, hself, hother, hmem, hnd⟩ :=
                  getChange_notFound answerID ha hg hlk
                have h2 : (applyOp s (.getChange pollID answerID)).2 = s' := by
                  simp [applyOp, hopEq]
                rw [h2]
                exact counter_le_of_update iid hdisk hnow hself hother (le_refl _)
            | some i =>
                obtain ⟨s', hopEq, hcfg, hdisk, hact, hnow, hself, hother, hmem, hnd⟩ :=
                  getChange_found ha hg hlk
                have h2 : (applyOp s (.getChange pollID answerID)).2 = s' := by
                  simp [applyOp, hopEq]
                rw [h2]
                exact counter_le_of_update iid hdisk hnow hself hother (le_refl _)
      · rw [@applyOp_notActive _ (Op.getChange pollID answerID) _ (by simpa using ha) rfl]

theorem answerCounter_step (iid : String) {s : StoreState} (op : Op)
    (hInv : stateInv s) (hop : allowedC4 op = true) :
    (effRecord s iid).AnswerCounter ≤
      (effRecord (step s op).2 iid).AnswerCounter :=
  le_trans (answerCounter_applyOp iid op hInv hop)
    (le_of_eq (answerCounter_set_now (applyOp s op).2
      ((applyOp s op).2.now + 1) iid).symm)

theorem runC4_neutral {P iid : String} {s : StoreState} {op : Op} {rest : List Op}
    (hmono1 : (effRecord s iid).AnswerCounter ≤
      (effRecord (step s op).2 iid).AnswerCounter)
    (ihMem : ∀ x ∈ idsForPoll P rest (runWithOuts (step s op).2 rest).2,
        ∃ k sfx, x = mkAnswerID k sfx ∧
          (effRecord (step s op).2 iid).AnswerCounter < k ∧
          k ≤ (effRecord (run (step s op).2 rest) iid).AnswerCounter)
    (ihMono : (effRecord (step s op).2 iid).AnswerCounter ≤
      (effRecord (run (step s op).2 rest) iid).AnswerCounter)
    (ihNd : (idsForPoll P rest (runWithOuts (step s op).2 rest).2).Nodup)
    (hEq : idsForPoll P (op :: rest)
        ((step s op).1 :: (runWithOuts (step s op).2 rest).2) =
      idsForPoll P rest (runWithOuts (step s op).2 rest).2) :
    (∀ x ∈ idsForPoll P (op :: rest)
        ((step s op).1 :: (runWithOuts (step s op).2 rest).2),
      ∃ k sfx, x = mkAnswerID k sfx ∧ (effRecord s iid).AnswerCounter < k ∧
        k ≤ (effRecord (run (step s op).2 rest) iid).AnswerCounter) ∧
    (effRecord s iid).AnswerCounter ≤
      (effRecord (run (step s op).2 rest) iid).AnswerCounter ∧
    (idsForPoll P (op :: rest)
        ((step s op).1 :: (runWithOuts (step s op).2 rest).2)).Nodup := by
  rw [hEq]
  refine ⟨?_, le_trans hmono1 ihMono, ihNd⟩
  intro x hx
  obtain ⟨k, sfx, h1, h2, h3⟩ := ihMem x hx
  exact ⟨k, sfx, h1, lt_of_le_of_lt hmono1 h2, h3⟩

theorem runC4 (P iid : String) (hg : getInternalID P = .ok iid) :
    ∀ (ops : List Op) (s : StoreState),
      (∀ op ∈ ops, allowedC4 op = true) → stateInv s →
      (∀ x ∈ idsForPoll P ops (runWithOuts s ops).2,
          ∃ k sfx, x = mkAnswerID k sfx ∧
            (effRecord s iid).AnswerCounter < k ∧
            k ≤ (effRecord (run s ops) iid).AnswerCounter) ∧
      (effRecord s iid).AnswerCounter ≤
        (effRecord (run s ops) iid).AnswerCounter ∧
      (idsForPoll P ops (runWithOuts s ops).2).Nodup := by
  intro ops
  induction ops with
  | nil =>
      intro s _ _
      refine ⟨?_, le_refl _, ?_⟩
      · intro x hx
        simp [idsForPoll] at hx
      · simp [runWithOuts, idsForPoll]
  | cons op rest ih =>
      intro s hops hInv
      have hop := hops op (List.mem_cons_self _ _)
      have hrest : ∀ o ∈ rest, allowedC4 o = true :=
        fun o ho => hops o (List.mem_cons_of_mem _ ho)
      have hmono1 := answerCounter_step iid op hInv hop
      obtain ⟨ihMem, ihMono, ihNd⟩ := ih (step s op).2 hrest (stateInv_step hInv op)
      rw [run_cons, runWithOuts_snd_cons]
      cases op with
      | clearTick => simp [allowedC4] at hop
      | flushAndClose => simp [allowedC4] at hop
      | runGC => simp [allowedC4] at hop
      | syncTick =>
          exact runC4_neutral hmono1 ihMem ihMono ihNd
            (idsForPoll_cons_notSave (by intro a b c d e f hEq; cases hEq))
      | overwritePollResult a b c d e f =>
          exact runC4_neutral hmono1 ihMem ihMono ihNd
            (idsForPoll_cons_notSave (by intro a b c d e f hEq; cases hEq))
      | getPollResult a =>
          exact runC4_neutral hmono1 ihMem ihMono ihNd
            (idsForPoll_cons_notSave (by intro a b c d e f hEq; cases hEq))
      | getSinglePollResult a b =>
          exact runC4_neutral hmono1 ihMem ihMono ihNd
            (idsForPoll_cons_notSave (by intro a b c d e f hEq; cases hEq))
      | deleteAnswer a b =>
          exact runC4_neutral hmono1 ihMem ihMono ihNd
            (idsForPoll_cons_notSave (by intro a b c d e f hEq; cases hEq))
      | savePollConfig a b =>
          exact runC4_neutral hmono1 ihMem ihMono ihNd
            (idsForPoll_cons_notSave (by intro a b c d e f hEq; cases hEq))
      | getPollConfig a =>
          exact runC4_neutral hmono1 ihMem ihMono ihNd
            (idsForPoll_cons_notSave (by intro a b c d e f hEq; cases hEq))
      | savePollCreator a b =>
          exact runC4_neutral hmono1 ihMem ihMono ihNd
            (idsForPoll_cons_notSave (by intro a b c d e f hEq; cases hEq))
      | getPollCreator a =>
          exact runC4_neutral hmono1 ihMem ihMono ihNd
            (idsForPoll_cons_notSave (by intro a b c d e f hEq; cases hEq))
      | markPollDeleted a =>
          exact runC4_neutral hmono1 ihMem ihMono ihNd
            (idsForPoll_cons_notSave (by intro a b c d e f hEq; cases hEq))
      | getChange a b =>
          exact runC4_neutral hmono1 ihMem ihMono ihNd
            (idsForPoll_cons_notSave (by intro a b c d e f hEq; cases hEq))
      | savePollResult pid name comment results change suffix =>
          by_cases hpid : pid = P
          · subst hpid
            by_cases ha : s.active = true
            · obtain ⟨s', hopEq, hcfg, hdisk, hact, hnow, hself, hother, hmem, hnd⟩ :=
                savePollResult_spec name comment results change suffix ha hg
              have hstep : step s (.savePollResult pid name comment results
                  change suffix) =
                  (.ok (.id (mkAnswerID ((effRecord s iid).AnswerCounter + 1)
                    suffix)), { s' with now := s'.now + 1 }) := by
                simp [step, applyOp, hopEq, Except.map]
              have h1 : (step s (.savePollResult pid name comment results
                  change suffix)).1 =
                  .ok (.id (mkAnswerID ((effRecord s iid).AnswerCounter + 1)
                    suffix)) := by
                rw [hstep]
              have h2 : (step s (.savePollResult pid name comment results
                  change suffix)).2 = { s' with now := s'.now + 1 } := by
                rw [hstep]
              have hcnt1 : (effRecord (step s (.savePollResult pid name comment
                  results change suffix)).2 iid).AnswerCounter =
                  (effRecord s iid).AnswerCounter + 1 := by
                rw [h2, answerCounter_set_now, effRecord_spec_step hself]
              have hEq : idsForPoll pid (Op.savePollResult pid name comment
                    results change suffix :: rest)
                  ((step s (.savePollResult pid name comment results change
                    suffix)).1 ::
                    (runWithOuts (step s (.savePollResult pid name comment
                      results change suffix)).2 rest).2) =
                  mkAnswerID ((effRecord s iid).AnswerCounter + 1) suffix ::
                    idsForPoll pid rest
                      (runWithOuts (step s (.savePollResult pid name comment
                        results change suffix)).2 rest).2 := by
                rw [h1, idsForPoll_cons_saveSelf]
              rw [hEq]
              rw [hcnt1] at ihMem ihMono
              refine ⟨?_, le_trans (Nat.le_succ _) ihMono, ?_⟩
              · intro x hx
                rcases List.mem_cons.mp hx with hx | hx
                · exact ⟨(effRecord s iid).AnswerCounter + 1, suffix, hx,
                    Nat.lt_succ_self _, ihMono⟩
                · obtain ⟨k, sfx, e1, e2, e3⟩ := ihMem x hx
                  exact ⟨k, sfx, e1, lt_trans (Nat.lt_succ_self _) e2, e3⟩
              · refine List.nodup_cons.mpr ⟨?_, ihNd⟩
                intro hmem'
                obtain ⟨k, sfx, e1, e2, e3⟩ := ihMem _ hmem'
                have hk := mkAnswerID_inj_left e1
                omega
            · have hfalse : s.active = false := by
                simpa using ha
              have h1 : (step s (.savePollResult pid name comment results
                  change suffix)).1 = .error .notActive := by
                have happ := @applyOp_notActive _
                  (Op.savePollResult pid name comment results change suffix) _
                  hfalse rfl
                show (applyOp s (.savePollResult pid name comment results
                  change suffix)).1 = .error .notActive
                rw [happ]
              have hEq : idsForPoll pid (Op.savePollResult pid name comment
                    results change suffix :: rest)
                  ((step s (.savePollResult pid name comment results change
                    suffix)).1 ::
                    (runWithOuts (step s (.savePollResult pid name comment
                      results change suffix)).2 rest).2) =
                  idsForPoll pid rest
                    (runWithOuts (step s (.savePollResult pid name comment
                      results change suffix)).2 rest).2 := by
                rw [h1]
                exact rfl
              exact runC4_neutral hmono1 ihMem ihMono ihNd hEq
          · exact runC4_neutral hmono1 ihMem ihMono ihNd
              (idsForPoll_cons_saveOther hpid)

set_option maxRecDepth 10000 in
/-- Claim C4, counterexample to the statement as frozen: from an empty
store with `MaximumMemory = 1` and `ClearAfterRatio = 0`, saving a row
for the never-configured poll `P`, touching a second poll `Q`, and
letting a clear tick evict `P` (whose record is silently discarded
because it has no config) resets `P`'s answer counter, so the next
`SavePollResult` with the same random suffix returns the same answer
id `1-A` again: the ids handed out for `P` are not pairwise distinct. -/
theorem claim_C4_counterexample :
    idsForPoll "P"
        [.savePollResult "P" "n" "c" [0] "ch" "A",
         .savePollResult "Q" "" "" [] "" "B",
         .clearTick,
         .savePollResult "P" "n" "c" [0] "ch" "A"]
        (runWithOuts (initState cfg0)
          [.savePollResult "P" "n" "c" [0] "ch" "A",
           .savePollResult "Q" "" "" [] "" "B",
           .clearTick,
           .savePollResult "P" "n" "c" [0] "ch" "A"]).2 = ["1-A", "1-A"] ∧
    ¬ (idsForPoll "P"
        [.savePollResult "P" "n" "c" [0] "ch" "A",
         .savePollResult "Q" "" "" [] "" "B",
         .clearTick,
         .savePollResult "P" "n" "c" [0] "ch" "A"]
        (runWithOuts (initState cfg0)
          [.savePollResult "P" "n" "c" [0] "ch" "A",
           .savePollResult "Q" "" "" [] "" "B",
           .clearTick,
           .savePollResult "P" "n" "c" [0] "ch" "A"]).2).Nodup := by
  decide

/-- Claim C4 (amended): for every poll and every sequence of store
operations from any well-formed store state — in particular the empty
store — that contains no eviction pass, flush, or GC, the answer ids
returned by `SavePollResult` for that poll are pairwise distinct, even
after intervening `DeleteAnswer` calls and even when the random
suffixes collide, because along such traces the answer counter is
never decremented or reused (the excluded events can drop an
unconfigured poll's record and thereby reset its counter, see the
counterexample). -/
theorem claim_C4 (P iid : String) (ops : List Op) (s : StoreState)
    (hg : getInternalID P = .ok iid)
    (hops : ∀ op ∈ ops, allowedC4 op = true)
    (hInv : stateInv s) :
    (idsForPoll P ops (runWithOuts s ops).2).Nodup :=
  (runC4 P iid hg ops s hops hInv).2.2

set_option maxRecDepth 10000 in
theorem claim_C4_witness :
    getInternalID "P" = .ok "P" ∧
    (∀ op ∈ ([.savePollResult "P" "n" "c" [0] "ch" "A",
        .deleteAnswer "P" "1-A",
        .savePollResult "P" "m" "d" [1] "ch2" "A"] : List Op),
      allowedC4 op = true) ∧
    stateInv (initState cfg0) ∧
    (idsForPoll "P"
        [.savePollResult "P" "n" "c" [0] "ch" "A",
         .deleteAnswer "P" "1-A",
         .savePollResult "P" "m" "d" [1] "ch2" "A"]
        (runWithOuts (initState cfg0)
          [.savePollResult "P" "n" "c" [0] "ch" "A",
           .deleteAnswer "P" "1-A",
           .savePollResult "P" "m" "d" [1] "ch2" "A"]).2).Nodup :=
  ⟨by decide, by decide, by decide,
   claim_C4 "P" "P" _ (initState cfg0) (by decide) (by decide) (by decide)⟩
